import Mathlib

/-!
# check_nagios

A shallow embedding of `plugins/check_nagios.c` and the properties of its
health evaluation: the status-log read loop, the process census, the verdict
and the argument handling.

Conventions of the embedding

* A C string, a buffer and a byte stream are `List Char`, one `Char` per byte.
  A buffer is read as a C string by `cstr`, which stops at the first NUL.
* `unsigned long` and `time_t` are the 64-bit types of an LP64 platform:
  `unsigned long` values are naturals below `2 ^ 64`, and a value is converted
  to `unsigned long` by `to_ulong`, reduction modulo `2 ^ 64`.
* An `int` is the 32-bit type. The product `expire_minutes * 60` of line 124 is
  wrapped to 32 bits in two's complement where it overflows, as the compiled code
  does (C leaves that case undefined).
* The counter `proc_entries` is a natural number: overflowing an `int` would take
  `2 ^ 31` matching lines of `ps` output.
* The C library functions (`fgets`, `strtok`, `strtoul`, `strstr`) follow the
  C standard, in the "C" locale.
* What the source takes from other files (`common.h`, `config.h`, `utils.c`) and
  from `getopt` is a field of `Config`, or is modelled where its doc comment says so.
* The alarm armed on line 65 is not modelled: a run is one that ends before the
  timeout fires.
-/

set_option autoImplicit false
set_option linter.unusedVariables false

namespace CheckNagios

/-! ## Constants -/

/-- Modelled from the spec: `common.h` is missing; section 6 maps the severity
OK to the exit code 0. -/
def STATE_OK : Int := 0

/-- Modelled from the spec: `common.h` is missing; section 6 maps the severity
WARNING to the exit code 1. -/
def STATE_WARNING : Int := 1

/-- Modelled from the spec: `common.h` is missing; section 6 maps the severity
CRITICAL to the exit code 2. -/
def STATE_CRITICAL : Int := 2

/-- Modelled from the spec: `common.h` is missing; section 6 maps the severity
UNKNOWN to the exit code 3. -/
def STATE_UNKNOWN : Int := 3

/-- The two values `process_arguments` returns. Their numbers come from the
missing `common.h`; `main` only tests `== ERROR`. -/
inductive RetCode where
  | OK
  | ERROR
deriving DecidableEq, Repr

/-- Line 33: `#define PROGNAME "check_nagios"`. -/
def PROGNAME : String := "check_nagios"

/-- The largest `unsigned long` (LP64). -/
def ULONG_MAX : Nat := 2 ^ 64 - 1

/-- The value `EOF` of `stdio.h`. -/
def EOF : Int := -1

/-! ## The C library -/

/-- The byte that ends a C string. -/
def NUL : Char := Char.ofNat 0

/-- The C string held in a buffer: its bytes before the first NUL. -/
def cstr (buf : List Char) : List Char :=
  buf.takeWhile (fun c => c != NUL)

/-- One `fgets` read that may store up to `k` bytes: the bytes stored and the rest
of the stream. Reading stops after a newline, at the end of the stream, or when
`k` bytes are stored. -/
def readLine : Nat → List Char → List Char × List Char
  | 0, stream => ([], stream)
  | _ + 1, [] => ([], [])
  | k + 1, c :: stream =>
    if c = '\n' then ([c], stream)
    else (c :: (readLine k stream).1, (readLine k stream).2)

/-- The call `fgets (buf, n, stream)`: `none` is the NULL returned at the end of the
stream, otherwise the bytes stored in `buf` (at most `n - 1`) and the rest of
the stream. With `n < 2` a read stores nothing; the properties below are about
`n ≥ 2`, a buffer that holds at least one byte and the NUL. -/
def fgets (n : Nat) (stream : List Char) : Option (List Char × List Char) :=
  if stream = [] then none else some (readLine (n - 1) stream)

/-- The loop `while (fgets (input_buffer, n, stream)) body`, run on a state. The
first argument after `body` bounds the number of iterations; `none` says the bound
was reached. `main` passes the length of the stream plus one: with `n ≥ 2` every
read takes at least one byte off the stream and the bound is never reached
(`while_fgets_terminates`); it is reached only when a read stores nothing. -/
def while_fgets {σ : Type} (n : Nat) (body : σ → List Char → σ) :
    Nat → List Char → σ → Option σ
  | 0, _, _ => none
  | fuel + 1, stream, s =>
    match fgets n stream with
    | none => some s
    | some (input_buffer, rest) => while_fgets n body fuel rest (body s input_buffer)

/-- The call `strtok (str, delim)` with a non-NULL `str`: NULL (`none`) when `str` has only
delimiter bytes, otherwise the first token, the bytes from the first
non-delimiter up to the next delimiter (which `strtok` overwrites with NUL). -/
def strtok (str delim : List Char) : Option (List Char) :=
  match (cstr str).dropWhile (fun c => (cstr delim).contains c) with
  | [] => none
  | c :: rest => some (c :: rest.takeWhile (fun d => !(cstr delim).contains d))

/-- The test of `isspace` in the "C" locale. -/
def isspace (c : Char) : Bool :=
  c = ' ' || c = '\t' || c = '\n' || c = '\x0b' || c = '\x0c' || c = '\r'

/-- The number a string of decimal digits denotes. -/
def decimalValue (digits : List Char) : Nat :=
  digits.foldl (fun acc c => 10 * acc + (c.toNat - '0'.toNat)) 0

/-- The call `strtoul (nptr, NULL, 10)`: white space is skipped, a sign is accepted, the
longest run of digits is converted; 0 when there is no digit, `ULONG_MAX` when
the value does not fit, and the value negated as an `unsigned long` after `-`. -/
def strtoul (nptr : List Char) : Nat :=
  let s := (cstr nptr).dropWhile isspace
  let negative := s.head? = some '-'
  let s := if s.head? = some '-' ∨ s.head? = some '+' then s.drop 1 else s
  let value := decimalValue (s.takeWhile Char.isDigit)
  if value > ULONG_MAX then ULONG_MAX
  else if negative then (2 ^ 64 - value) % 2 ^ 64
  else value

/-- Whether `haystack` holds the bytes of `needle` from some position on: the
search of `strstr` over two lists of bytes. -/
def occursIn (needle : List Char) : List Char → Bool
  | [] => needle.isEmpty
  | c :: haystack => needle.isPrefixOf (c :: haystack) || occursIn needle haystack

/-- The test `strstr (haystack, needle) != NULL` on two C strings. -/
def strstr (haystack needle : List Char) : Bool :=
  occursIn (cstr needle) (cstr haystack)

/-- Conversion of an integer to `unsigned long`. -/
def to_ulong (x : Int) : Nat := (x % 2 ^ 64).toNat

/-- The value of an integer as a 32-bit `int`: its low 32 bits, read in two's
complement. It is the cast `(int)` of an `unsigned long` (lines 131-132) and the result
of an `int` operation that overflows, as the compiled code computes it. -/
def to_int (x : Int) : Int :=
  if x % 2 ^ 32 < 2 ^ 31 then x % 2 ^ 32 else x % 2 ^ 32 - 2 ^ 32

/-! ## The program's data -/

/-- One answer of `getopt_long`: the value returned and the globals `optarg` and
`optopt` it leaves. -/
structure GetoptResult where
  c : Int
  optarg : Option String
  optopt : Char

/-- What the source takes from outside `check_nagios.c`: the constants of `common.h` and
`config.h`, the helpers of `utils.c`, and the C library's `atoi` and `getopt_long`
(given as the list of answers of its successive calls on an argument vector,
the final `-1` left out). A `char *` that may be NULL is an `Option String`. -/
structure Config where
  MAX_INPUT_BUFFER : Nat
  PS_RAW_COMMAND : String
  max_state : Int → Int → Int
  is_option : String → Bool
  is_intnonneg : Option String → Bool
  atoi : Option String → Int
  my_basename : String → String
  print_revision : String → String → String
  getopt : List String → List GetoptResult

/-- The child started by `spopen`: what it writes to its standard output, what it writes
to its standard error when `fdopen` opens that stream (`none` when it does not),
and the value `spclose` returns. -/
structure Child where
  stdout : List Char
  stderr : Option (List Char)
  spclose : Int

/-- The world one run sees: whether `signal` fails, the content of each file
that opens for reading, the child `spopen` starts for a command (`none` for a
NULL result), and the clock. -/
structure World where
  signal_fails : Bool
  fopen : String → Option (List Char)
  spopen : String → Option Child
  time : Int

/-- What a run does to the outside, in order. -/
inductive Event where
  | printf (text : String)
  | fopen (path : String)
  | spopen (command : String)
deriving DecidableEq, Repr

/-- How a run ends: with an exit code (a `return` of `main` or a call of `exit`),
in undefined behaviour (a NULL pointer handed to the C library, a read past
the end of `argv`), or never. -/
inductive Outcome where
  | exit (state : Int) (trace : List Event)
  | undefined (trace : List Event)
  | hangs (trace : List Event)
deriving DecidableEq, Repr

/-- The globals of lines 39-41. -/
structure Globals where
  status_log : Option String
  process_string : Option String
  expire_minutes : Int
deriving DecidableEq, Repr

/-- The initial values of the globals: NULL, NULL and 0. -/
def Globals.init : Globals := ⟨none, none, 0⟩

/-- How `process_arguments` ends: it returns a code and leaves the globals, it
leaves the program with an exit code, or it reads past the end of `argv`. -/
inductive ArgResult where
  | ret (code : RetCode) (g : Globals)
  | exit (state : Int) (trace : List Event)
  | undefined
deriving DecidableEq, Repr

/-! ## Argument handling -/

/-- Lines 229-235: the text `print_usage` writes. -/
def print_usage : String :=
  "Usage: " ++ PROGNAME ++ " -F <status log file> -e <expire_minutes> -C <process_string>\n"

/-- Lines 241-267: the text `print_help` writes. -/
def print_help (cfg : Config) : String :=
  cfg.print_revision PROGNAME "$Revision$" ++
  ("Copyright (c) 2000 Ethan Galstad/Karl DeBisschop\n\n" ++
   "This plugin attempts to check the status of the Nagios process on the local\n" ++
   "machine. The plugin will check to make sure the Nagios status log is no older\n" ++
   "than the number of minutes specified by the <expire_minutes> option.  It also\n" ++
   "uses the /bin/ps command to check for a process matching whatever you specify\n" ++
   "by the <process_string> argument.\n") ++
  print_usage ++
  ("\nOptions:\n" ++
   "-F, --filename=FILE\n" ++
   "   Name of the log file to check\n" ++
   "-e, --expires=INTEGER\n" ++
   "   Seconds aging afterwhich logfile is condsidered stale\n" ++
   "-C, --command=STRING\n" ++
   "   Command to search for in process table\n" ++
   "-h, --help\n" ++
   "   Print this help screen\n" ++
   "-V, --version\n" ++
   "   Print version information\n\n" ++
   "Example:\n" ++
   "   ./check_nagios -H /usr/local/nagios/var/status.log -e 5 -C /usr/local/nagios/bin/nagios\n")

/-- Modelled from the spec: `terminate` of `utils.c` is missing; by section 7 a
precondition error is reported once and ends the run with the given severity,
so the call writes its message and leaves the program with `state`. -/
def terminate (state : Int) (text : String) : ArgResult :=
  .exit state [.printf text]

/-- Modelled from the spec: `usage` of `utils.c` is missing; by section 4.3 step 1 a
violated precondition concludes the run with UNKNOWN, so the call writes its
message and leaves the program with `STATE_UNKNOWN`. -/
def usage (msg : String) : Outcome :=
  .exit STATE_UNKNOWN [.printf msg]

/-- The message of lines 167-169 and 205-207. -/
def expiration_message : String :=
  "Expiration time must be an integer (seconds)\nType '" ++ PROGNAME ++
    " -h' for additional help\n"

/-- Lines 213-222: the check of the two required globals after the option loop. -/
def check_required (g : Globals) : ArgResult :=
  if g.status_log = none then
    terminate STATE_UNKNOWN
      ("You must provide the status_log\nType '" ++ PROGNAME ++ " -h' for additional help\n")
  else if g.process_string = none then
    terminate STATE_UNKNOWN
      ("You must provide a process string\nType '" ++ PROGNAME ++ " -h' for additional help\n")
  else .ret .OK g

/-- Lines 174-210: the option loop, over the answers of the successive `getopt_long`
calls (the list ends where the next call returns `-1`). -/
def getopt_loop (cfg : Config) (argv0 : String) : List GetoptResult → Globals → ArgResult
  | [], g => check_required g
  | r :: answers, g =>
    if r.c = -1 ∨ r.c = EOF ∨ r.c = 1 then check_required g
    else if r.c = '?'.toNat then
      .exit STATE_UNKNOWN
        [.printf (cfg.my_basename argv0 ++ ": Unknown argument: " ++
            String.singleton r.optopt ++ "\n\n"),
         .printf print_usage]
    else if r.c = 'h'.toNat then .exit STATE_OK [.printf (print_help cfg)]
    else if r.c = 'V'.toNat then
      .exit STATE_OK [.printf (cfg.print_revision (cfg.my_basename argv0) "$Revision$")]
    else if r.c = 'F'.toNat then
      getopt_loop cfg argv0 answers { g with status_log := r.optarg }
    else if r.c = 'C'.toNat then
      getopt_loop cfg argv0 answers { g with process_string := r.optarg }
    else if r.c = 'e'.toNat then
      if cfg.is_intnonneg r.optarg then
        getopt_loop cfg argv0 answers { g with expire_minutes := cfg.atoi r.optarg }
      else terminate STATE_UNKNOWN expiration_message
    else getopt_loop cfg argv0 answers g

/-- Lines 142-223: `process_arguments (argc, argv)`, with `argc` the length of `argv`.
The element `argv[argc]` is the NULL pointer that ends the vector; an element
past it is a read outside the vector. -/
def process_arguments (cfg : Config) (argv : List String) : ArgResult :=
  match argv with
  | [] => .ret .ERROR Globals.init
  | [_] => .ret .ERROR Globals.init
  | argv0 :: argv1 :: rest =>
    if cfg.is_option argv1 = false then
      if cfg.is_intnonneg rest.head? then
        match rest with
        | [] => .undefined
        | argv2 :: rest3 =>
          .ret .OK
            { status_log := some argv1,
              expire_minutes := cfg.atoi (some argv2),
              process_string := rest3.head? }
      else terminate STATE_UNKNOWN expiration_message
    else getopt_loop cfg argv0 (cfg.getopt argv) Globals.init

/-! ## The evaluation -/

/-- Lines 76-78: the value `temp_entry_time` the read loop computes from one
`input_buffer`. `temp_ptr + 1` is the token without its first byte. -/
def temp_entry_time (input_buffer : List Char) : Nat :=
  match strtok input_buffer [']'] with
  | none => 0
  | some temp_ptr => strtoul (temp_ptr.drop 1)

/-- Lines 76-80: the body of the read loop, on the state `latest_entry_time`. -/
def status_log_body (latest_entry_time : Nat) (input_buffer : List Char) : Nat :=
  if temp_entry_time input_buffer > latest_entry_time then temp_entry_time input_buffer
  else latest_entry_time

/-- Lines 98-99: the body of the census loop, on the state `proc_entries`. -/
def census_body (process_string : List Char) (proc_entries : Nat)
    (input_buffer : List Char) : Nat :=
  if strstr input_buffer process_string then proc_entries + 1 else proc_entries

/-- Lines 48 and 75-81: `latest_entry_time` after the read loop over a status log
with the given content. -/
def latest_entry_time (cfg : Config) (fp : List Char) : Option Nat :=
  while_fgets (cfg.MAX_INPUT_BUFFER - 1) status_log_body (fp.length + 1) fp 0

/-- Lines 50 and 97-100: `proc_entries` after the census loop over the child's
standard output. -/
def proc_entries (cfg : Config) (process_string : List Char) (child_process : List Char) :
    Option Nat :=
  while_fgets (cfg.MAX_INPUT_BUFFER - 1) (census_body process_string)
    (child_process.length + 1) child_process 0

/-- Lines 127-132: the line `main` prints with its verdict. -/
def verdict_message (result : Int) (proc_entries : Nat) (age : Nat) : String :=
  "Nagios " ++ (if result = STATE_OK then "ok" else "problem") ++
  ": located " ++ toString proc_entries ++
  " process" ++ (if proc_entries = 1 then "" else "es") ++
  ", status log updated " ++ toString (to_int age) ++
  " second" ++ (if to_int age = 1 then "" else "s") ++ " ago\n"

/-- Lines 43-135: `main (argc, argv)`. On line 124 the product `expire_minutes * 60` is
an `int` product, `to_int (expire_minutes * 60)`, converted to `unsigned long` for the
comparison with the `unsigned long` difference. -/
def main (cfg : Config) (w : World) (argv : List String) : Outcome :=
  let result := STATE_UNKNOWN
  match process_arguments cfg argv with
  | .exit state trace => .exit state trace
  | .undefined => .undefined []
  | .ret .ERROR _ => usage "Could not parse arguments\n"
  | .ret .OK g =>
    if w.signal_fails then .exit STATE_UNKNOWN [.printf "Cannot catch SIGALRM"]
    else
    match g.status_log with
    | none => .undefined []
    | some status_log =>
    match w.fopen status_log with
    | none =>
      .exit STATE_CRITICAL
        [.fopen status_log, .printf "Error: Cannot open status log for reading!\n"]
    | some fp =>
    match latest_entry_time cfg fp with
    | none => .hangs [.fopen status_log]
    | some latest_entry_time =>
    match w.spopen cfg.PS_RAW_COMMAND with
    | none =>
      .exit STATE_UNKNOWN
        [.fopen status_log, .spopen cfg.PS_RAW_COMMAND,
         .printf ("Could not open pipe: " ++ cfg.PS_RAW_COMMAND ++ "\n")]
    | some child =>
    let trace : List Event :=
      [.fopen status_log, .spopen cfg.PS_RAW_COMMAND] ++
        (if child.stderr = none then
          [.printf ("Could not open stderr for " ++ cfg.PS_RAW_COMMAND ++ "\n")]
         else [])
    if g.process_string = none ∧ child.stdout ≠ [] then .undefined trace
    else
    match proc_entries cfg (g.process_string.getD "").toList child.stdout with
    | none => .hangs trace
    | some proc_entries =>
    match child.stderr with
    | none => .undefined trace
    | some child_stderr =>
    match while_fgets (cfg.MAX_INPUT_BUFFER - 1)
        (fun result _ => cfg.max_state result STATE_WARNING)
        (child_stderr.length + 1) child_stderr result with
    | none => .hangs trace
    | some result =>
    let result := if child.spclose ≠ 0 then cfg.max_state result STATE_WARNING else result
    if proc_entries = 0 then
      .exit STATE_CRITICAL (trace ++ [.printf "Could not locate a running Nagios process!\n"])
    else
    let result := STATE_OK
    let current_time := w.time
    let age := to_ulong (current_time - latest_entry_time)
    let result :=
      if age > to_ulong (to_int (g.expire_minutes * 60)) then STATE_WARNING else result
    .exit result (trace ++ [.printf (verdict_message result proc_entries age)])

/-! ## Definitions used to state the properties -/

/-- The successive contents of `input_buffer` in a loop `while (fgets (input_buffer, n, stream))`,
for at most the given number of iterations. -/
def buffers (n : Nat) : Nat → List Char → List (List Char)
  | 0, _ => []
  | fuel + 1, stream =>
    match fgets n stream with
    | none => []
    | some (input_buffer, rest) => input_buffer :: buffers n fuel rest

/-- The successive contents of `input_buffer` when a whole stream is read. -/
def reads (n : Nat) (stream : List Char) : List (List Char) :=
  buffers n (stream.length + 1) stream

/-- The lines of a text, each with the newline that ends it; the last line may
lack one. -/
def textLines : List Char → List (List Char)
  | [] => []
  | c :: text =>
    if c = '\n' then [c] :: textLines text
    else
      match textLines text with
      | [] => [[c]]
      | line :: lines => (c :: line) :: lines

/-- The per-line rule in the words of section 4.1 of the specification: the line is split
on the first `]`; without a `]` the timestamp is 0, otherwise it is the number
parsed from the text that follows that `]`. -/
def spec_temp_entry_time (line : List Char) : Nat :=
  if ']' ∈ line then strtoul ((line.dropWhile (fun c => c != ']')).drop 1) else 0

/-- A line that ends with its newline and has no other newline. -/
def IsTerminatedLine (l : List Char) : Prop :=
  l.getLast? = some '\n' ∧ '\n' ∉ l.dropLast

instance (l : List Char) : Decidable (IsTerminatedLine l) :=
  inferInstanceAs (Decidable (l.getLast? = some '\n' ∧ '\n' ∉ l.dropLast))

/-- A status-log line of the Nagios form: `[`, the text `stamp`, `]`, and the text
`rest`. -/
def nagiosLine (stamp rest : List Char) : List Char :=
  '[' :: stamp ++ ']' :: rest

/-! ## A sample configuration and sample worlds -/

/-- A stand-in for `getopt_long` on the short options given apart from their
arguments (`-F file -e minutes -C string`); it stops at the first other word. -/
def sampleGetoptFrom : List String → List GetoptResult
  | "-F" :: value :: args => ⟨'F'.toNat, some value, 'F'⟩ :: sampleGetoptFrom args
  | "-e" :: value :: args => ⟨'e'.toNat, some value, 'e'⟩ :: sampleGetoptFrom args
  | "-C" :: value :: args => ⟨'C'.toNat, some value, 'C'⟩ :: sampleGetoptFrom args
  | _ => []

/-- A configuration for the examples: a buffer of 1024 bytes, a `ps` command line,
and simple stand-ins for the helpers of `utils.c`, for `atoi` and for `getopt_long`. -/
def sampleConfig : Config where
  MAX_INPUT_BUFFER := 1024
  PS_RAW_COMMAND := "/bin/ps -axwo 'stat uid ppid comm args'"
  max_state := fun a b => max a b
  is_option := fun s => s.toList.head? = some '-'
  is_intnonneg := fun s =>
    match s with
    | none => false
    | some t => !t.toList.isEmpty && t.toList.all Char.isDigit
  atoi := fun s =>
    match s with
    | none => 0
    | some t => decimalValue (t.toList.takeWhile Char.isDigit)
  my_basename := fun s => s
  print_revision := fun name revision => name ++ " " ++ revision ++ "\n"
  getopt := fun argv => sampleGetoptFrom (argv.drop 1)

/-- A status log of the Nagios form; its latest entry is stamped 1200. -/
def sampleLog : List Char :=
  "[1000] PROGRAM;0;1234;0\n[1200] HOST;web;UP;1198\n[1100] SERVICE;web;ping;OK\n".toList

/-- A process listing with two lines that name the daemon. -/
def samplePs : List Char :=
  "S 0 1 init /sbin/init\nS 500 1 nagios /usr/bin/nagios -d\nS 500 871 nagios /usr/bin/nagios -d\n".toList

/-- The argument vector of the examples, in the positional form: the log, 5
minutes, the string `nagios`. -/
def sampleArgv : List String := ["check_nagios", "status.log", "5", "nagios"]

/-- A healthy host at time 1205: the log opens, `ps` runs, writes nothing to its
standard error and ends with status 0. -/
def sampleWorld : World where
  signal_fails := false
  fopen := fun path => if path = "status.log" then some sampleLog else none
  spopen := fun _ => some ⟨samplePs, some [], 0⟩
  time := 1205

/-- The healthy host, except that `ps` writes a line to its standard error and ends with
status 1. -/
def anomalyWorld : World :=
  { sampleWorld with
    spopen := fun _ => some ⟨samplePs, some "ps: warning: odd option\n".toList, 1⟩ }

/-- The healthy host with a clock one second behind the latest log entry. -/
def skewedWorld : World :=
  { sampleWorld with time := 1199 }

/-- The healthy host an hour and more later: the log is 4000 seconds old. -/
def staleWorld : World :=
  { sampleWorld with time := 5200 }

/-- The healthy host at time 1500: the log is exactly 300 seconds old. -/
def thresholdWorld : World :=
  { sampleWorld with time := 1500 }

/-- A host on which the daemon is not running, with a child that also fails. -/
def deadWorld : World :=
  { sampleWorld with
    spopen := fun _ => some ⟨"S 0 1 init /sbin/init\n".toList, some "ps: error\n".toList, 1⟩ }

/-- The healthy host in the year 2065, 3000000000 seconds after the latest entry. -/
def farFutureWorld : World :=
  { sampleWorld with time := 3000001200 }

/-- The healthy host, except that `fdopen` does not open the standard error of the child. -/
def noStderrWorld : World :=
  { sampleWorld with spopen := fun _ => some ⟨samplePs, none, 0⟩ }

/-- A host on which the daemon is not running and `fdopen` does not open the standard error
of the child. -/
def deadNoStderrWorld : World :=
  { sampleWorld with spopen := fun _ => some ⟨"S 0 1 init /sbin/init\n".toList, none, 0⟩ }

/-- A host on which the child cannot be started. -/
def noChildWorld : World :=
  { sampleWorld with spopen := fun _ => none }

/-! ## Reading a stream with `fgets` -/

theorem readLine_append (k : Nat) (s : List Char) :
    (readLine k s).1 ++ (readLine k s).2 = s := by
  induction k generalizing s with
  | zero => simp [readLine]
  | succ k ih =>
    cases s with
    | nil => simp [readLine]
    | cons c s =>
      by_cases hc : c = '\n'
      · simp [readLine, hc]
      · simp [readLine, hc, ih]

theorem readLine_length_le (k : Nat) (s : List Char) : (readLine k s).1.length ≤ k := by
  induction k generalizing s with
  | zero => simp [readLine]
  | succ k ih =>
    cases s with
    | nil => simp [readLine]
    | cons c s =>
      by_cases hc : c = '\n'
      · simp [readLine, hc]
      · simpa [readLine, hc] using ih s

theorem readLine_rest_length (k : Nat) (c : Char) (s : List Char) :
    (readLine (k + 1) (c :: s)).2.length ≤ s.length := by
  have h := congrArg List.length (readLine_append k s)
  by_cases hc : c = '\n'
  · simp [readLine, hc]
  · simp only [readLine, hc, if_false]
    simp only [List.length_append] at h
    omega

theorem fgets_nil (n : Nat) : fgets n [] = none := by
  simp [fgets]

theorem fgets_cons (n : Nat) (c : Char) (s : List Char) :
    fgets n (c :: s) = some (readLine (n - 1) (c :: s)) := by
  simp [fgets]

theorem fgets_rest_length (n : Nat) (hn : 2 ≤ n) (c : Char) (s : List Char) :
    (readLine (n - 1) (c :: s)).2.length ≤ s.length := by
  obtain ⟨k, hk⟩ : ∃ k, n - 1 = k + 1 := ⟨n - 2, by omega⟩
  rw [hk]
  exact readLine_rest_length k c s

theorem buffers_succ_cons (n fuel : Nat) (c : Char) (s : List Char) :
    buffers n (fuel + 1) (c :: s) =
      (readLine (n - 1) (c :: s)).1 :: buffers n fuel (readLine (n - 1) (c :: s)).2 := by
  simp only [buffers, fgets_cons]

theorem buffers_fuel (n : Nat) (hn : 2 ≤ n) (fuel fuel2 : Nat) (s : List Char)
    (h1 : s.length < fuel) (h2 : s.length < fuel2) :
    buffers n fuel s = buffers n fuel2 s := by
  induction fuel generalizing fuel2 s with
  | zero => omega
  | succ fuel ih =>
    cases fuel2 with
    | zero => omega
    | succ fuel2 =>
      cases s with
      | nil => simp [buffers, fgets_nil]
      | cons c s =>
        have hlen := fgets_rest_length n hn c s
        simp only [List.length_cons] at h1 h2
        rw [buffers_succ_cons, buffers_succ_cons, ih fuel2 _ (by omega) (by omega)]

theorem reads_nil (n : Nat) : reads n [] = [] := by
  simp [reads, buffers, fgets_nil]

theorem reads_cons (n : Nat) (hn : 2 ≤ n) (c : Char) (s : List Char) :
    reads n (c :: s) =
      (readLine (n - 1) (c :: s)).1 :: reads n (readLine (n - 1) (c :: s)).2 := by
  have hlen := fgets_rest_length n hn c s
  unfold reads
  rw [List.length_cons, buffers_succ_cons]
  rw [buffers_fuel n hn _ _ _ (by omega) (Nat.lt_succ_self _)]

theorem while_fgets_eq {σ : Type} (n : Nat) (hn : 2 ≤ n) (body : σ → List Char → σ)
    (fuel : Nat) (s : List Char) (st : σ) (h : s.length < fuel) :
    while_fgets n body fuel s st = some ((reads n s).foldl body st) := by
  induction fuel generalizing s st with
  | zero => omega
  | succ fuel ih =>
    cases s with
    | nil => simp [while_fgets, fgets_nil, reads_nil]
    | cons c s =>
      have hlen := fgets_rest_length n hn c s
      simp only [List.length_cons] at h
      rw [reads_cons n hn]
      simp only [while_fgets, fgets_cons, List.foldl_cons]
      rw [ih _ _ (by omega)]

theorem while_fgets_terminates {σ : Type} (n : Nat) (hn : 2 ≤ n) (body : σ → List Char → σ)
    (s : List Char) (st : σ) :
    while_fgets n body (s.length + 1) s st = some ((reads n s).foldl body st) :=
  while_fgets_eq n hn body _ s st (Nat.lt_succ_self _)

theorem readLine_newline_append (k : Nat) (pre extra : List Char) :
    readLine k (pre ++ '\n' :: extra) =
      ((readLine k (pre ++ ['\n'])).1, (readLine k (pre ++ ['\n'])).2 ++ extra) := by
  induction k generalizing pre with
  | zero => simp [readLine]
  | succ k ih =>
    cases pre with
    | nil => simp [readLine]
    | cons c pre =>
      by_cases hc : c = '\n'
      · simp [readLine, hc]
      · simp [readLine, hc, ih pre]

theorem reads_newline_append (n : Nat) (hn : 2 ≤ n) (pre extra : List Char) :
    reads n (pre ++ '\n' :: extra) = reads n (pre ++ ['\n']) ++ reads n extra := by
  suffices key : ∀ (m : Nat) (pre : List Char), pre.length = m →
      reads n (pre ++ '\n' :: extra) = reads n (pre ++ ['\n']) ++ reads n extra from
    key _ pre rfl
  intro m
  induction m using Nat.strong_induction_on with
  | _ m ih =>
    intro pre h
    have hsplit := readLine_newline_append (n - 1) pre extra
    have happ := readLine_append (n - 1) (pre ++ ['\n'])
    obtain ⟨c, s, hcs⟩ : ∃ c s, pre ++ ['\n'] = c :: s := by
      cases pre with
      | nil => exact ⟨_, _, rfl⟩
      | cons c pre => exact ⟨c, pre ++ ['\n'], rfl⟩
    have hcs2 : pre ++ '\n' :: extra = c :: (s ++ extra) := by
      have : pre ++ '\n' :: extra = (pre ++ ['\n']) ++ extra := by simp
      rw [this, hcs]; rfl
    have hlen := fgets_rest_length n hn c s
    have hslen : s.length = pre.length := by
      have := congrArg List.length hcs
      simpa using this.symm
    rw [hcs2, reads_cons n hn, ← hcs2, hsplit, hcs, reads_cons n hn]
    simp only [List.cons_append, List.cons.injEq, true_and]
    rcases List.eq_nil_or_concat (readLine (n - 1) (c :: s)).2 with hnil | ⟨L, b, hL⟩
    · rw [hnil]; simp [reads_nil]
    · rw [List.concat_eq_append] at hL
      rw [hL] at hlen
      rw [hcs, hL] at happ
      have hb : b = '\n' := by
        have h1 := congrArg List.getLast? happ
        simp [List.getLast?_append] at h1
        have h2 : (c :: s).getLast? = some '\n' := by rw [← hcs]; simp
        rw [h2] at h1
        simpa using h1
      subst hb
      rw [hL]
      have : L ++ ['\n'] ++ extra = L ++ '\n' :: extra := by simp
      rw [this]
      simp only [List.length_append, List.length_singleton] at hlen
      exact ih L.length (by omega) L rfl

theorem reads_append_line (n : Nat) (hn : 2 ≤ n) (fp line : List Char)
    (hfp : fp = [] ∨ fp.getLast? = some '\n') :
    reads n (fp ++ line) = reads n fp ++ reads n line := by
  rcases hfp with h | h
  · simp [h, reads_nil]
  · rcases List.eq_nil_or_concat fp with hnil | ⟨pre, b, hpre⟩
    · simp [hnil] at h
    · rw [List.concat_eq_append] at hpre
      subst hpre
      have hb : b = '\n' := by simpa using h
      subst hb
      have := reads_newline_append n hn pre line
      simpa using this

/-! ## The status-log read loop -/

theorem foldr_max_le (l : List Nat) : ∀ t ∈ l, t ≤ l.foldr max 0 := by
  induction l with
  | nil => simp
  | cons a l ih =>
    intro t ht
    rcases List.mem_cons.mp ht with h | h
    · subst h; exact Nat.le_max_left _ _
    · exact Nat.le_trans (ih t h) (Nat.le_max_right _ _)

theorem foldr_max_mem (l : List Nat) : l.foldr max 0 = 0 ∨ l.foldr max 0 ∈ l := by
  induction l with
  | nil => simp
  | cons a l ih =>
    simp only [List.foldr_cons, List.mem_cons]
    rcases Nat.le_total a (l.foldr max 0) with h | h
    · rw [Nat.max_eq_right h]
      rcases ih with h0 | hm
      · exact Or.inl h0
      · exact Or.inr (Or.inr hm)
    · rw [Nat.max_eq_left h]
      exact Or.inr (Or.inl rfl)

theorem foldr_max_append (l1 l2 : List Nat) :
    (l1 ++ l2).foldr max 0 = max (l1.foldr max 0) (l2.foldr max 0) := by
  induction l1 with
  | nil => simp
  | cons a l ih => simp [ih, Nat.max_assoc]

theorem foldl_status_log_body (bufs : List (List Char)) (init : Nat) :
    bufs.foldl status_log_body init = max init ((bufs.map temp_entry_time).foldr max 0) := by
  induction bufs generalizing init with
  | nil => simp
  | cons b bs ih =>
    simp only [List.foldl_cons, List.map_cons, List.foldr_cons, ih]
    unfold status_log_body
    split <;> omega

theorem latest_entry_time_eq (cfg : Config) (hbuf : 3 ≤ cfg.MAX_INPUT_BUFFER) (fp : List Char) :
    latest_entry_time cfg fp =
      some (((reads (cfg.MAX_INPUT_BUFFER - 1) fp).map temp_entry_time).foldr max 0) := by
  unfold latest_entry_time
  rw [while_fgets_terminates _ (by omega), foldl_status_log_body]
  simp

/-! ## Bytes -/

theorem isDigit_ne_nul (c : Char) (h : c.isDigit = true) : c ≠ NUL := by
  rintro rfl; exact absurd h (by decide)

theorem isDigit_ne_bracket (c : Char) (h : c.isDigit = true) : c ≠ ']' := by
  rintro rfl; exact absurd h (by decide)

theorem isDigit_ne_newline (c : Char) (h : c.isDigit = true) : c ≠ '\n' := by
  rintro rfl; exact absurd h (by decide)

theorem isDigit_not_isspace (c : Char) (h : c.isDigit = true) : isspace c = false := by
  cases hs : isspace c with
  | false => rfl
  | true =>
    simp only [isspace, Bool.or_eq_true, decide_eq_true_eq] at hs
    rcases hs with ((((h1 | h1) | h1) | h1) | h1) | h1 <;>
      (subst h1; exact absurd h (by decide))

theorem isDigit_ne_minus (c : Char) (h : c.isDigit = true) : c ≠ '-' := by
  rintro rfl; exact absurd h (by decide)

theorem isDigit_ne_plus (c : Char) (h : c.isDigit = true) : c ≠ '+' := by
  rintro rfl; exact absurd h (by decide)

theorem cstr_of_no_nul (a : List Char) (h : NUL ∉ a) : cstr a = a := by
  unfold cstr
  rw [List.takeWhile_eq_self_iff]
  intro c hc
  have : c ≠ NUL := fun e => h (e ▸ hc)
  simpa using this

theorem cstr_append (a b : List Char) (h : NUL ∉ a) : cstr (a ++ b) = a ++ cstr b := by
  induction a with
  | nil => rfl
  | cons c a ih =>
    have hc : c ≠ NUL := fun e => h (by simp [e])
    have ha : NUL ∉ a := fun e => h (by simp [e])
    have := ih ha
    unfold cstr at this ⊢
    simp [List.takeWhile_cons, hc, this]

theorem cstr_no_nul (a : List Char) : NUL ∉ cstr a := by
  unfold cstr
  intro h
  have := List.mem_takeWhile_imp h
  simp at this

theorem cstr_delim : cstr [']'] = [']'] := by decide

/-! ## `strtoul` and `strtok` -/

theorem strtoul_nil : strtoul [] = 0 := by decide

theorem strtoul_digits (d : List Char) (hd : ∀ c ∈ d, c.isDigit = true) :
    strtoul d = min (decimalValue d) ULONG_MAX := by
  have hnul : NUL ∉ d := fun h => isDigit_ne_nul _ (hd _ h) rfl
  have htake : d.takeWhile Char.isDigit = d := by
    rw [List.takeWhile_eq_self_iff]; exact hd
  cases d with
  | nil => decide
  | cons c d =>
    have hc := hd c (by simp)
    have h1 : isspace c = false := isDigit_not_isspace c hc
    have h2 : c ≠ '-' := isDigit_ne_minus c hc
    have h3 : c ≠ '+' := isDigit_ne_plus c hc
    have hdrop : (c :: d).dropWhile isspace = c :: d := by simp [List.dropWhile_cons, h1]
    have hsign : ¬ ((c :: d).head? = some '-' ∨ (c :: d).head? = some '+') := by
      simp [h2, h3]
    have hneg : ¬ ((c :: d).head? = some '-') := by simp [h2]
    unfold strtoul
    rw [cstr_of_no_nul _ hnul]
    simp only [hdrop, if_neg hsign, if_neg hneg, htake]
    split <;> omega

theorem strtoul_garbage (c : Char) (rest : List Char) (h1 : isspace c = false)
    (h2 : c ≠ '-') (h3 : c ≠ '+') (h4 : c.isDigit = false) : strtoul (c :: rest) = 0 := by
  unfold strtoul
  by_cases hc : c = NUL
  · subst hc; simp [cstr, decimalValue, ULONG_MAX]
  · have : cstr (c :: rest) = c :: cstr rest := cstr_append [c] rest (by simpa using Ne.symm hc)
    rw [this]
    simp [List.dropWhile_cons, h1, h2, h3, List.takeWhile_cons, h4, decimalValue, ULONG_MAX]

theorem clamp_le (v : Nat) (negative : Prop) [Decidable negative] :
    (if v > ULONG_MAX then ULONG_MAX
     else if negative then (2 ^ 64 - v) % 2 ^ 64 else v) ≤ ULONG_MAX := by
  have hm : (2 ^ 64 - v) % 2 ^ 64 < 2 ^ 64 := Nat.mod_lt _ (by norm_num)
  unfold ULONG_MAX
  split
  · exact Nat.le_refl _
  · split <;> omega

theorem strtoul_le (s : List Char) : strtoul s ≤ ULONG_MAX := by
  unfold strtoul
  exact clamp_le _ _

theorem contains_delim (x : Char) : [']'].contains x = decide (x = ']') := by
  by_cases h : x = ']' <;> simp [h]

theorem dropWhile_brackets (n : Nat) (c : Char) (rest : List Char) (hc : c ≠ ']') :
    (List.replicate n ']' ++ c :: rest).dropWhile (fun x => [']'].contains x) = c :: rest := by
  induction n with
  | zero => simp [List.dropWhile_cons, contains_delim, hc]
  | succ n ih =>
    rw [List.replicate_succ, List.cons_append, List.dropWhile_cons]
    simpa [contains_delim] using ih

theorem takeWhile_token (body tail : List Char) (hb : ']' ∉ body)
    (ht : tail = [] ∨ tail.head? = some ']') :
    (body ++ tail).takeWhile (fun d => !([']'].contains d)) = body := by
  induction body with
  | nil =>
    rcases ht with h | h
    · simp [h]
    · cases tail with
      | nil => simp
      | cons t tail =>
        have : t = ']' := by simpa using h
        simp [List.takeWhile_cons, contains_delim, this]
  | cons b body ih =>
    have hb1 : b ≠ ']' := fun e => hb (by simp [e])
    have hb2 : ']' ∉ body := fun e => hb (by simp [e])
    simp [List.takeWhile_cons, contains_delim, hb1]
    simpa [contains_delim] using ih hb2

theorem temp_entry_time_of_cstr (buf : List Char) (n : Nat) (c : Char) (body tail : List Char)
    (h : cstr buf = List.replicate n ']' ++ c :: (body ++ tail)) (hc : c ≠ ']')
    (hb : ']' ∉ body) (ht : tail = [] ∨ tail.head? = some ']') :
    temp_entry_time buf = strtoul body := by
  unfold temp_entry_time strtok
  rw [cstr_delim, h, dropWhile_brackets n c _ hc]
  simp only [takeWhile_token body tail hb ht, List.drop_one, List.tail_cons]

theorem temp_entry_time_zero (buf : List Char) (h : ∀ c ∈ cstr buf, c = ']') :
    temp_entry_time buf = 0 := by
  unfold temp_entry_time strtok
  rw [cstr_delim]
  have : (cstr buf).dropWhile (fun c => [']'].contains c) = [] := by
    rw [List.dropWhile_eq_nil_iff]
    intro c hc
    simp [contains_delim, h c hc]
  rw [this]

/-! ## Lines and buffers -/

theorem textLines_ne_nil (c : Char) (s : List Char) : textLines (c :: s) ≠ [] := by
  unfold textLines
  split
  · simp
  · split <;> simp

theorem textLines_eq_readLine (k : Nat) (s : List Char) (hs : s ≠ [])
    (hfit : ∀ l, (textLines s).head? = some l → l.length ≤ k) :
    textLines s = (readLine k s).1 :: textLines (readLine k s).2 := by
  induction s generalizing k with
  | nil => exact absurd rfl hs
  | cons c s ih =>
    by_cases hc : c = '\n'
    · cases k with
      | zero =>
        have := hfit [c] (by simp [textLines, hc])
        simp at this
      | succ k => simp [textLines, readLine, hc]
    · cases s with
      | nil =>
        cases k with
        | zero =>
          have := hfit [c] (by simp [textLines, hc])
          simp at this
        | succ k => cases k <;> simp [textLines, readLine, hc]
      | cons d s =>
        obtain ⟨line, lines, hl⟩ : ∃ line lines, textLines (d :: s) = line :: lines := by
          cases h : textLines (d :: s) with
          | nil => exact absurd h (textLines_ne_nil d s)
          | cons line lines => exact ⟨line, lines, rfl⟩
        have hcs : textLines (c :: d :: s) = (c :: line) :: lines := by
          rw [textLines, if_neg hc, hl]
        cases k with
        | zero =>
          have := hfit (c :: line) (by simp [hcs])
          simp at this
        | succ k =>
          have hk : line.length ≤ k := by
            have := hfit (c :: line) (by simp [hcs])
            simpa using this
          have h2 := ih k (by simp) (by
            intro l hl2
            rw [hl] at hl2
            simp at hl2
            rw [← hl2]; exact hk)
          rw [hl] at h2
          rw [hcs]
          simp only [readLine, if_neg hc]
          rw [List.cons.injEq] at h2
          rw [h2.1, h2.2]

theorem reads_eq_textLines (n : Nat) (hn : 2 ≤ n) (s : List Char)
    (hfit : ∀ l ∈ textLines s, l.length ≤ n - 1) : reads n s = textLines s := by
  suffices key : ∀ (m : Nat) (s : List Char), s.length = m →
      (∀ l ∈ textLines s, l.length ≤ n - 1) → reads n s = textLines s from
    key _ s rfl hfit
  intro m
  induction m using Nat.strong_induction_on with
  | _ m ih =>
    intro s hm hfit
    cases s with
    | nil => simp [reads_nil, textLines]
    | cons c s =>
      have hlen := fgets_rest_length n hn c s
      have hsplit := textLines_eq_readLine (n - 1) (c :: s) (by simp) (by
        intro l hl
        exact hfit l (List.mem_of_mem_head? hl))
      rw [reads_cons n hn, hsplit]
      simp only [List.length_cons] at hm
      rw [ih _ (by omega) _ rfl (by
        intro l hl
        apply hfit
        rw [hsplit]
        exact List.mem_cons_of_mem _ hl)]

theorem readLine_isPrefix_head (k : Nat) (c : Char) (s : List Char) :
    ∃ l, (textLines (c :: s)).head? = some l ∧ (readLine k (c :: s)).1 <+: l := by
  induction s generalizing k c with
  | nil =>
    by_cases hc : c = '\n'
    · refine ⟨[c], by simp [textLines, hc], ?_⟩
      cases k <;> simp [readLine, hc]
    · refine ⟨[c], by simp [textLines, hc], ?_⟩
      cases k with
      | zero => simp [readLine]
      | succ k => cases k <;> simp [readLine, hc]
  | cons d s ih =>
    by_cases hc : c = '\n'
    · refine ⟨[c], by simp [textLines, hc], ?_⟩
      cases k <;> simp [readLine, hc]
    · cases k with
      | zero =>
        cases h : textLines (c :: d :: s) with
        | nil => exact absurd h (textLines_ne_nil _ _)
        | cons l ls => exact ⟨l, by simp, by simp [readLine]⟩
      | succ k =>
        obtain ⟨l, hl, hpre⟩ := ih k d
        cases h : textLines (d :: s) with
        | nil => exact absurd h (textLines_ne_nil _ _)
        | cons line lines =>
          rw [h] at hl
          simp at hl
          subst hl
          refine ⟨c :: line, by rw [textLines, if_neg hc, h]; simp, ?_⟩
          simp only [readLine, if_neg hc]
          exact List.prefix_cons_inj c |>.mpr hpre

theorem textLines_cons_covers (c : Char) (s : List Char) :
    ∀ l ∈ textLines s, ∃ l2 ∈ textLines (c :: s), l <:+ l2 := by
  intro l hl
  by_cases hc : c = '\n'
  · exact ⟨l, by simp [textLines, hc, hl], List.suffix_refl l⟩
  · cases h : textLines s with
    | nil => rw [h] at hl; simp at hl
    | cons line lines =>
      rw [h] at hl
      rcases List.mem_cons.mp hl with e | e
      · subst e
        exact ⟨c :: l, by rw [textLines, if_neg hc, h]; simp, List.suffix_cons c l⟩
      · exact ⟨l, by rw [textLines, if_neg hc, h]; simp [e], List.suffix_refl l⟩

theorem textLines_suffix_covers (t s : List Char) (hts : t <:+ s) :
    ∀ l ∈ textLines t, ∃ l2 ∈ textLines s, l <:+ l2 := by
  induction s with
  | nil =>
    have : t = [] := List.suffix_nil.mp hts
    subst this
    intro l hl
    simp [textLines] at hl
  | cons c s ih =>
    rcases List.suffix_cons_iff.mp hts with h | h
    · subst h
      intro l hl
      exact ⟨l, hl, List.suffix_refl l⟩
    · intro l hl
      obtain ⟨l1, hl1, hs1⟩ := ih h l hl
      obtain ⟨l2, hl2, hs2⟩ := textLines_cons_covers c s l1 hl1
      exact ⟨l2, hl2, hs1.trans hs2⟩

theorem reads_within_lines (n : Nat) (hn : 2 ≤ n) (s : List Char) :
    ∀ b ∈ reads n s, ∃ l ∈ textLines s, b <:+: l := by
  suffices key : ∀ (m : Nat) (s : List Char), s.length = m →
      ∀ b ∈ reads n s, ∃ l ∈ textLines s, b <:+: l from
    key _ s rfl
  intro m
  induction m using Nat.strong_induction_on with
  | _ m ih =>
    intro s hm b hb
    cases s with
    | nil => simp [reads_nil] at hb
    | cons c s =>
      have hlen := fgets_rest_length n hn c s
      rw [reads_cons n hn] at hb
      simp only [List.length_cons] at hm
      rcases List.mem_cons.mp hb with e | e
      · obtain ⟨l, hl, hpre⟩ := readLine_isPrefix_head (n - 1) c s
        exact ⟨l, List.mem_of_mem_head? hl, e ▸ hpre.isInfix⟩
      · obtain ⟨l, hl, hin⟩ := ih _ (by omega) _ rfl b e
        have hsuf : (readLine (n - 1) (c :: s)).2 <:+ c :: s :=
          ⟨(readLine (n - 1) (c :: s)).1, readLine_append _ _⟩
        obtain ⟨l2, hl2, hs2⟩ := textLines_suffix_covers _ _ hsuf l hl
        exact ⟨l2, hl2, hin.trans hs2.isInfix⟩

/-! ## The census loop -/

theorem occursIn_iff (needle haystack : List Char) :
    occursIn needle haystack = true ↔ needle <:+: haystack := by
  induction haystack with
  | nil => simp [occursIn, List.infix_nil]
  | cons c haystack ih =>
    rw [occursIn, Bool.or_eq_true, ih, List.infix_cons_iff, List.isPrefixOf_iff_prefix]

theorem strstr_iff (buf p : List Char) : strstr buf p = true ↔ cstr p <:+: cstr buf := by
  unfold strstr
  exact occursIn_iff _ _

theorem cstr_isPrefix (buf : List Char) : cstr buf <+: buf :=
  List.takeWhile_prefix _

theorem foldl_census_body (p : List Char) (bufs : List (List Char)) (init : Nat) :
    bufs.foldl (census_body p) init = init + bufs.countP (fun b => strstr b p) := by
  induction bufs generalizing init with
  | nil => simp
  | cons b bs ih =>
    rw [List.foldl_cons, ih, List.countP_cons]
    unfold census_body
    cases strstr b p <;> simp
    omega

theorem proc_entries_eq (cfg : Config) (hbuf : 3 ≤ cfg.MAX_INPUT_BUFFER)
    (p out : List Char) :
    proc_entries cfg p out =
      some ((reads (cfg.MAX_INPUT_BUFFER - 1) out).countP (fun b => strstr b p)) := by
  unfold proc_entries
  rw [while_fgets_terminates _ (by omega), foldl_census_body]
  simp

/-! ## The run of `main` -/

theorem main_run (cfg : Config) (w : World) (argv : List String) (g : Globals)
    (status_log process_string : String)
    (fp : List Char) (child : Child) (child_stderr : List Char)
    (hbuf : 3 ≤ cfg.MAX_INPUT_BUFFER)
    (hargs : process_arguments cfg argv = .ret .OK g)
    (hlog : g.status_log = some status_log)
    (hps : g.process_string = some process_string)
    (hsignal : w.signal_fails = false)
    (hopen : w.fopen status_log = some fp)
    (hspawn : w.spopen cfg.PS_RAW_COMMAND = some child)
    (herr : child.stderr = some child_stderr) :
    main cfg w argv =
      if (reads (cfg.MAX_INPUT_BUFFER - 1) child.stdout).countP
          (fun b => strstr b process_string.toList) = 0 then
        .exit STATE_CRITICAL
          [.fopen status_log, .spopen cfg.PS_RAW_COMMAND,
           .printf "Could not locate a running Nagios process!\n"]
      else
        .exit
          (if to_ulong (w.time -
                (((reads (cfg.MAX_INPUT_BUFFER - 1) fp).map temp_entry_time).foldr max 0 : Nat)) >
              to_ulong (to_int (g.expire_minutes * 60)) then STATE_WARNING else STATE_OK)
          [.fopen status_log, .spopen cfg.PS_RAW_COMMAND,
           .printf (verdict_message
             (if to_ulong (w.time -
                (((reads (cfg.MAX_INPUT_BUFFER - 1) fp).map temp_entry_time).foldr max 0 : Nat)) >
              to_ulong (to_int (g.expire_minutes * 60)) then STATE_WARNING else STATE_OK)
             ((reads (cfg.MAX_INPUT_BUFFER - 1) child.stdout).countP
                (fun b => strstr b process_string.toList))
             (to_ulong (w.time -
                (((reads (cfg.MAX_INPUT_BUFFER - 1) fp).map temp_entry_time).foldr max 0 : Nat))))] := by
  unfold main
  simp only [hargs, hsignal, hlog, hopen, latest_entry_time_eq cfg hbuf, hspawn, hps, herr,
    proc_entries_eq cfg hbuf, while_fgets_terminates _ (show 2 ≤ cfg.MAX_INPUT_BUFFER - 1 by omega)]
  simp

theorem to_ulong_of_range (x : Int) (h0 : 0 ≤ x) (h1 : x < 2 ^ 64) : (to_ulong x : Int) = x := by
  unfold to_ulong
  omega

theorem to_int_of_range (x : Int) (h0 : 0 ≤ x) (h1 : x < 2 ^ 31) : to_int x = x := by
  unfold to_int
  split <;> omega

theorem to_ulong_of_neg (x : Int) (h0 : x < 0) (h1 : -(2 ^ 64) ≤ x) :
    (to_ulong x : Int) = x + 2 ^ 64 := by
  unfold to_ulong
  omega

theorem no_match_in_reads (n : Nat) (hn : 2 ≤ n) (p out : List Char)
    (hnone : ∀ l ∈ textLines out, ¬ cstr p <:+: l) :
    (reads n out).countP (fun b => strstr b p) = 0 := by
  rw [List.countP_eq_zero]
  intro b hb hs
  obtain ⟨l, hl, hin⟩ := reads_within_lines n hn out b hb
  exact hnone l hl (((strstr_iff b p).mp hs).trans ((cstr_isPrefix b).isInfix.trans hin))

/-! ## Argument handling -/

theorem check_required_ok (g g2 : Globals) (code : RetCode)
    (h : check_required g = .ret code g2) :
    code = .OK ∧ g2 = g ∧ g.status_log ≠ none ∧ g.process_string ≠ none := by
  unfold check_required terminate at h
  split at h
  · cases h
  · split at h
    · cases h
    · injection h with h1 h2
      exact ⟨h1.symm, h2.symm, by assumption, by assumption⟩

theorem getopt_loop_ok (cfg : Config) (argv0 : String) (answers : List GetoptResult)
    (g g2 : Globals) (code : RetCode)
    (h : getopt_loop cfg argv0 answers g = .ret code g2) :
    code = .OK ∧ g2.status_log ≠ none ∧ g2.process_string ≠ none := by
  induction answers generalizing g with
  | nil =>
    obtain ⟨h1, h2, h3, h4⟩ := check_required_ok g g2 code (by simpa [getopt_loop] using h)
    subst h2
    exact ⟨h1, h3, h4⟩
  | cons r answers ih =>
    unfold getopt_loop at h
    split at h
    · obtain ⟨h1, h2, h3, h4⟩ := check_required_ok g g2 code h
      subst h2
      exact ⟨h1, h3, h4⟩
    · split at h
      · cases h
      · split at h
        · cases h
        · split at h
          · cases h
          · split at h
            · exact ih _ h
            · split at h
              · exact ih _ h
              · split at h
                · split at h
                  · exact ih _ h
                  · cases h
                · exact ih _ h

theorem process_arguments_flagged_ok (cfg : Config) (argv0 argv1 : String) (rest : List String)
    (g : Globals) (code : RetCode) (hopt : cfg.is_option argv1 = true)
    (h : process_arguments cfg (argv0 :: argv1 :: rest) = .ret code g) :
    code = .OK ∧ g.status_log ≠ none ∧ g.process_string ≠ none := by
  simp only [process_arguments, hopt] at h
  exact getopt_loop_ok cfg argv0 _ _ g code (by simpa using h)

/-! ## Status-log lines -/

theorem readLine_whole_line (k : Nat) (line more : List Char) (hline : '\n' ∉ line)
    (hfit : line.length + 1 ≤ k) :
    readLine k (line ++ '\n' :: more) = (line ++ ['\n'], more) := by
  induction line generalizing k with
  | nil =>
    cases k with
    | zero => simp at hfit
    | succ k => simp [readLine]
  | cons c line ih =>
    have hc : c ≠ '\n' := fun e => hline (by simp [e])
    have hl : '\n' ∉ line := fun e => hline (by simp [e])
    cases k with
    | zero => simp at hfit
    | succ k =>
      simp only [List.length_cons] at hfit
      simp [readLine, hc, ih k hl (by omega)]

theorem readLine_last_line (k : Nat) (line : List Char) (hline : '\n' ∉ line)
    (hfit : line.length ≤ k) : readLine k line = (line, []) := by
  induction line generalizing k with
  | nil => cases k <;> simp [readLine]
  | cons c line ih =>
    have hc : c ≠ '\n' := fun e => hline (by simp [e])
    have hl : '\n' ∉ line := fun e => hline (by simp [e])
    cases k with
    | zero => simp at hfit
    | succ k =>
      simp only [List.length_cons] at hfit
      simp [readLine, hc, ih k hl (by omega)]

theorem cstr_head (rest : List Char) (c : Char) (h : (cstr rest).head? = some c) :
    rest.head? = some c := by
  cases rest with
  | nil => simp [cstr] at h
  | cons r rest =>
    unfold cstr at h
    rw [List.takeWhile_cons] at h
    split at h
    · simpa using h
    · simp at h

theorem strtoul_number (d rest : List Char) (hne : d ≠ [])
    (hd : ∀ c ∈ d, c.isDigit = true)
    (hrest : ∀ c, rest.head? = some c → c.isDigit = false) :
    strtoul (d ++ rest) = min (decimalValue d) ULONG_MAX := by
  have hnul : NUL ∉ d := fun h => isDigit_ne_nul _ (hd _ h) rfl
  have htail : (cstr rest).takeWhile Char.isDigit = [] := by
    cases h : cstr rest with
    | nil => rfl
    | cons r t =>
      have := hrest r (cstr_head rest r (by rw [h]; rfl))
      simp [List.takeWhile_cons, this]
  have htake : (d ++ cstr rest).takeWhile Char.isDigit = d := by
    rw [List.takeWhile_append_of_pos hd, htail, List.append_nil]
  cases d with
  | nil => exact absurd rfl hne
  | cons c d =>
    have hc := hd c (by simp)
    have h1 : isspace c = false := isDigit_not_isspace c hc
    have h2 : c ≠ '-' := isDigit_ne_minus c hc
    have h3 : c ≠ '+' := isDigit_ne_plus c hc
    have hdrop : (c :: d ++ cstr rest).dropWhile isspace = c :: d ++ cstr rest := by
      simp [List.dropWhile_cons, h1]
    have hsign : ¬ ((c :: d ++ cstr rest).head? = some '-' ∨
        (c :: d ++ cstr rest).head? = some '+') := by
      simp [h2, h3]
    have hneg : ¬ ((c :: d ++ cstr rest).head? = some '-') := by simp [h2]
    unfold strtoul
    rw [cstr_append _ _ hnul]
    simp only [hdrop, if_neg hsign, if_neg hneg, htake]
    split <;> omega

theorem temp_entry_time_nagiosLine (d rest : List Char) (hd : ∀ c ∈ d, c.isDigit = true) :
    temp_entry_time (nagiosLine d rest) = min (decimalValue d) ULONG_MAX := by
  have hnul : NUL ∉ ('[' :: d) := by
    intro h
    rcases List.mem_cons.mp h with e | e
    · exact absurd e (by decide)
    · exact isDigit_ne_nul _ (hd _ e) rfl
  have hcstr : cstr (nagiosLine d rest) =
      List.replicate 0 ']' ++ '[' :: (d ++ cstr (']' :: rest)) := by
    unfold nagiosLine
    exact cstr_append ('[' :: d) (']' :: rest) hnul
  have htail : cstr (']' :: rest) = ']' :: cstr rest :=
    cstr_append [']'] rest (by decide)
  rw [temp_entry_time_of_cstr _ 0 '[' d _ hcstr (by decide)
    (fun h => isDigit_ne_bracket _ (hd _ h) rfl) (Or.inr (by rw [htail]; rfl))]
  exact strtoul_digits d hd

/-! ## Long lines and lines that fit -/

theorem reads_of_ne_nil (n : Nat) (hn : 2 ≤ n) (s : List Char) (hs : s ≠ []) :
    reads n s = (readLine (n - 1) s).1 :: reads n (readLine (n - 1) s).2 := by
  cases s with
  | nil => exact absurd rfl hs
  | cons c s => exact reads_cons n hn c s

theorem readLine_replicate (m k : Nat) (c : Char) (rest : List Char) (hc : c ≠ '\n') :
    readLine (m + k) (List.replicate m c ++ rest) =
      (List.replicate m c ++ (readLine k rest).1, (readLine k rest).2) := by
  induction m with
  | zero => simp
  | succ m ih =>
    have : m + 1 + k = (m + k) + 1 := by omega
    rw [this, List.replicate_succ, List.cons_append]
    simp only [readLine, if_neg hc, ih, List.cons_append]

theorem textLines_replicate (m : Nat) (c d : Char) (rest line : List Char)
    (lines : List (List Char)) (hc : c ≠ '\n') (h : textLines (d :: rest) = line :: lines) :
    textLines (List.replicate m c ++ d :: rest) = (List.replicate m c ++ line) :: lines := by
  induction m with
  | zero => simpa using h
  | succ m ih =>
    rw [List.replicate_succ, List.cons_append, textLines, if_neg hc, ih]
    rfl

theorem strstr_eq_decide (p l : List Char) :
    strstr l p = decide (cstr p <:+: cstr l) := by
  have h := strstr_iff l p
  by_cases hin : cstr p <:+: cstr l
  · simp [hin, h.mpr hin]
  · have : strstr l p = false := by
      cases hs : strstr l p with
      | false => rfl
      | true => exact absurd (h.mp hs) hin
    simp [hin, this]

theorem proc_entries_of_lines (cfg : Config) (p out : List Char)
    (hbuf : 3 ≤ cfg.MAX_INPUT_BUFFER)
    (hfit : ∀ l ∈ textLines out, l.length ≤ cfg.MAX_INPUT_BUFFER - 2) :
    proc_entries cfg p out =
      some ((textLines out).countP (fun l => decide (cstr p <:+: cstr l))) := by
  rw [proc_entries_eq cfg hbuf, reads_eq_textLines _ (by omega) _ (fun l hl => by
    have := hfit l hl
    omega)]
  congr 1
  apply List.countP_congr
  intro l hl
  rw [strstr_eq_decide p l]

theorem long_line_count (m : Nat) :
    (textLines (List.replicate m 'x' ++ "nagios\n".toList)).countP
        (fun l => decide ("nagios".toList <:+: l)) = 1 := by
  have e : "nagios\n".toList = 'n' :: "agios\n".toList := rfl
  have hlines : textLines (List.replicate m 'x' ++ "nagios\n".toList) =
      [List.replicate m 'x' ++ "nagios\n".toList] := by
    rw [e]
    exact textLines_replicate m 'x' 'n' "agios\n".toList ('n' :: "agios\n".toList) []
      (by decide) (by decide)
  have hin : "nagios".toList <:+: List.replicate m 'x' ++ "nagios\n".toList :=
    ⟨List.replicate m 'x', "\n".toList, by
      rw [List.append_assoc]
      rfl⟩
  rw [hlines, List.countP_cons, List.countP_nil]
  simp only [hin, decide_True, if_true]

theorem long_line_entries (n m : Nat) (hn : 2 ≤ n) (hm : n - 1 = m + 3) (hm1 : 1 ≤ m) :
    (reads n (List.replicate m 'x' ++ "nagios\n".toList)).countP
        (fun b => strstr b "nagios".toList) = 0 := by
  have hread : readLine (n - 1) (List.replicate m 'x' ++ "nagios\n".toList) =
      (List.replicate m 'x' ++ "nag".toList, "ios\n".toList) := by
    have h := readLine_replicate m 3 'x' "nagios\n".toList (by decide)
    have h2 : readLine 3 "nagios\n".toList = ("nag".toList, "ios\n".toList) := by decide
    rw [h2] at h
    rw [hm]
    exact h
  have hne : List.replicate m 'x' ++ "nagios\n".toList ≠ [] := by
    intro h
    exact absurd (List.append_eq_nil.mp h).2 (by decide)
  have hfirst : strstr (List.replicate m 'x' ++ "nag".toList) "nagios".toList = false := by
    cases hs : strstr (List.replicate m 'x' ++ "nag".toList) "nagios".toList with
    | false => rfl
    | true =>
      have h1 := ((strstr_iff _ _).mp hs).trans (cstr_isPrefix _).isInfix
      have h2 : 'o' ∈ List.replicate m 'x' ++ "nag".toList := h1.subset (by decide)
      rcases List.mem_append.mp h2 with e | e
      · exact absurd (List.eq_of_mem_replicate e) (by decide)
      · exact absurd e (by decide)
  have hrest : reads n "ios\n".toList = ["ios\n".toList] := by
    have e : "ios\n".toList = 'i' :: "os\n".toList := rfl
    have h3 : readLine (n - 1) ('i' :: "os\n".toList) = ('i' :: "os\n".toList, []) := by
      have := readLine_whole_line (n - 1) "ios".toList [] (by decide)
        (by rw [hm]; simp; omega)
      exact this
    rw [e, reads_cons n hn, h3, reads_nil]
  have hsecond : strstr "ios\n".toList "nagios".toList = false := by decide
  rw [reads_of_ne_nil n hn _ hne, hread, hrest]
  simp only [List.countP_cons, List.countP_nil, hfirst, hsecond]
  rfl

theorem textLines_line_append (body rest : List Char) (hbody : '\n' ∉ body) :
    textLines (body ++ '\n' :: rest) = (body ++ ['\n']) :: textLines rest := by
  induction body with
  | nil => simp [textLines]
  | cons c body ih =>
    have hc : c ≠ '\n' := fun e => hbody (by simp [e])
    have hb : '\n' ∉ body := fun e => hbody (by simp [e])
    rw [List.cons_append, textLines, if_neg hc, ih hb]
    rfl

theorem terminated_eq (l : List Char) (h : IsTerminatedLine l) :
    l = l.dropLast ++ ['\n'] := by
  rcases List.eq_nil_or_concat l with hnil | ⟨body, b, hl⟩
  · rw [hnil] at h
    simp [IsTerminatedLine] at h
  · rw [List.concat_eq_append] at hl
    subst hl
    have hb : b = '\n' := by simpa [IsTerminatedLine] using h.1
    subst hb
    simp

theorem textLines_flatten (ls : List (List Char)) (h : ∀ l ∈ ls, IsTerminatedLine l) :
    textLines ls.flatten = ls := by
  induction ls with
  | nil => simp [textLines]
  | cons l ls ih =>
    have hl := h l (by simp)
    have e := terminated_eq l hl
    rw [List.flatten_cons]
    conv_lhs => rw [e]
    rw [List.append_assoc, List.singleton_append, textLines_line_append _ _ hl.2,
      ih (fun x hx => h x (List.mem_cons_of_mem _ hx)), ← e]

theorem temp_entry_time_le (buf : List Char) : temp_entry_time buf ≤ ULONG_MAX := by
  unfold temp_entry_time
  split
  · exact Nat.zero_le _
  · exact strtoul_le _

theorem process_arguments_ok (cfg : Config) (argv : List String) (g : Globals)
    (h : process_arguments cfg argv = .ret .OK g) : g.status_log ≠ none := by
  match argv, h with
  | [], h => simp [process_arguments] at h
  | [_], h => simp [process_arguments] at h
  | argv0 :: argv1 :: rest, h =>
    cases hopt : cfg.is_option argv1 with
    | true => exact (process_arguments_flagged_ok cfg argv0 argv1 rest g .OK hopt h).2.1
    | false =>
      simp only [process_arguments, hopt, if_true] at h
      split at h
      · split at h
        · cases h
        · injection h with _ hg
          rw [← hg]
          simp
      · cases h

/-- The zero-match verdict of lines 116-119, in a run in which the log opens, the
child is spawned and `fdopen` opens its standard error: if no line of the child's output
contains `process_string` (equivalently for the code, if `proc_entries` is 0 after
the census loop), `main` returns `STATE_CRITICAL` with the message of line 117,
whatever the status log holds, whatever the clock and `expire_minutes` are, and
whatever the child wrote to its standard error or returned from `spclose`. -/
theorem main_no_process_critical (cfg : Config) (w : World) (argv : List String) (g : Globals)
    (status_log process_string : String) (fp : List Char) (child : Child)
    (child_stderr : List Char)
    (hbuf : 3 ≤ cfg.MAX_INPUT_BUFFER)
    (hargs : process_arguments cfg argv = .ret .OK g)
    (hlog : g.status_log = some status_log)
    (hps : g.process_string = some process_string)
    (hsignal : w.signal_fails = false)
    (hopen : w.fopen status_log = some fp)
    (hspawn : w.spopen cfg.PS_RAW_COMMAND = some child)
    (herr : child.stderr = some child_stderr)
    (hnone : (∀ l ∈ textLines child.stdout, ¬ cstr process_string.toList <:+: l) ∨
      proc_entries cfg process_string.toList child.stdout = some 0) :
    proc_entries cfg process_string.toList child.stdout = some 0 ∧
    main cfg w argv =
      .exit STATE_CRITICAL
        [.fopen status_log, .spopen cfg.PS_RAW_COMMAND,
         .printf "Could not locate a running Nagios process!\n"] := by
  have hzero : (reads (cfg.MAX_INPUT_BUFFER - 1) child.stdout).countP
      (fun b => strstr b process_string.toList) = 0 := by
    rcases hnone with h | h
    · exact no_match_in_reads _ (by omega) _ _ h
    · rw [proc_entries_eq cfg hbuf] at h
      injection h
  refine ⟨by rw [proc_entries_eq cfg hbuf, hzero], ?_⟩
  rw [main_run cfg w argv g status_log process_string fp child child_stderr hbuf hargs hlog hps
      hsignal hopen hspawn herr, if_pos hzero]

/-- The zero-match verdict at a host whose process listing has no line with `nagios`,
whose log is 5 seconds old and whose child also wrote to its standard error and ended
with status 1. -/
theorem main_no_process_critical_example :
    proc_entries sampleConfig "nagios".toList "S 0 1 init /sbin/init\n".toList = some 0 ∧
    main sampleConfig deadWorld sampleArgv =
      .exit STATE_CRITICAL
        [.fopen "status.log", .spopen sampleConfig.PS_RAW_COMMAND,
         .printf "Could not locate a running Nagios process!\n"] :=
  main_no_process_critical sampleConfig deadWorld sampleArgv
    ⟨some "status.log", some "nagios", 5⟩ "status.log" "nagios" sampleLog
    ⟨"S 0 1 init /sbin/init\n".toList, some "ps: error\n".toList, 1⟩ "ps: error\n".toList
    (by decide) (by decide) rfl rfl rfl (by decide) rfl rfl (Or.inl (by decide))

/-! ## The claims -/

/-- C1 (a defect of the code). A census anomaly does not keep the verdict above OK:
in a run in which the log opens, the child is spawned, the child wrote to its
standard error or `spclose` returned non-zero, at least one process was counted
and the age of the log is within the threshold, `main` returns `STATE_OK`. Line
121 stores `STATE_OK` over the value that lines 104 and 111 raised, against the
comment of line 102. -/
theorem main_anomaly_returns_ok (cfg : Config) (w : World) (argv : List String) (g : Globals)
    (status_log process_string : String) (fp : List Char) (child : Child)
    (child_stderr : List Char) (latest entries : Nat)
    (hbuf : 3 ≤ cfg.MAX_INPUT_BUFFER)
    (hargs : process_arguments cfg argv = .ret .OK g)
    (hlog : g.status_log = some status_log)
    (hps : g.process_string = some process_string)
    (hsignal : w.signal_fails = false)
    (hopen : w.fopen status_log = some fp)
    (hspawn : w.spopen cfg.PS_RAW_COMMAND = some child)
    (herr : child.stderr = some child_stderr)
    (hanomaly : child_stderr ≠ [] ∨ child.spclose ≠ 0)
    (hlatest : latest_entry_time cfg fp = some latest)
    (hentries : proc_entries cfg process_string.toList child.stdout = some entries)
    (hfound : 1 ≤ entries)
    (hfresh : to_ulong (w.time - latest) ≤ to_ulong (to_int (g.expire_minutes * 60))) :
    main cfg w argv =
      .exit STATE_OK
        [.fopen status_log, .spopen cfg.PS_RAW_COMMAND,
         .printf (verdict_message STATE_OK entries (to_ulong (w.time - latest)))] := by
  rw [latest_entry_time_eq cfg hbuf] at hlatest
  rw [proc_entries_eq cfg hbuf] at hentries
  injection hlatest with hlatest
  injection hentries with hentries
  rw [main_run cfg w argv g status_log process_string fp child child_stderr hbuf hargs hlog hps
      hsignal hopen hspawn herr, hlatest, hentries]
  rw [if_neg (by omega), if_neg (by omega)]

/-- C1, at a host whose `ps` writes to its standard error and ends with status 1 while the
log is 5 seconds old and two processes match: `main` answers OK. -/
theorem main_anomaly_returns_ok_witness :
    main sampleConfig anomalyWorld sampleArgv =
      .exit STATE_OK
        [.fopen "status.log", .spopen sampleConfig.PS_RAW_COMMAND,
         .printf (verdict_message STATE_OK 2 (to_ulong ((1205 : Int) - (1200 : Nat))))] :=
  main_anomaly_returns_ok sampleConfig anomalyWorld sampleArgv
    ⟨some "status.log", some "nagios", 5⟩ "status.log" "nagios" sampleLog
    ⟨samplePs, some "ps: warning: odd option\n".toList, 1⟩ "ps: warning: odd option\n".toList
    1200 2 (by decide) (by decide) rfl rfl rfl (by decide) rfl rfl (by decide)
    (by decide) (by decide) (by decide) (by decide)

/-- C2 (a defect of the code). When `fdopen` does not open the standard error of the child,
lines 92-94 print a message and go on, and line 103 hands the NULL stream to `fgets`
before the test of line 116 is reached: in a run in which the log opens, the child
is spawned and no line of its output contains `process_string`, `proc_entries` is 0
and `main` ends in undefined behaviour instead of returning `STATE_CRITICAL`. -/
theorem main_stderr_null_undefined (cfg : Config) (w : World) (argv : List String)
    (g : Globals) (status_log process_string : String) (fp : List Char) (child : Child)
    (hbuf : 3 ≤ cfg.MAX_INPUT_BUFFER)
    (hargs : process_arguments cfg argv = .ret .OK g)
    (hlog : g.status_log = some status_log)
    (hps : g.process_string = some process_string)
    (hsignal : w.signal_fails = false)
    (hopen : w.fopen status_log = some fp)
    (hspawn : w.spopen cfg.PS_RAW_COMMAND = some child)
    (herr : child.stderr = none)
    (hnone : ∀ l ∈ textLines child.stdout, ¬ cstr process_string.toList <:+: l) :
    proc_entries cfg process_string.toList child.stdout = some 0 ∧
    main cfg w argv =
      .undefined
        [.fopen status_log, .spopen cfg.PS_RAW_COMMAND,
         .printf ("Could not open stderr for " ++ cfg.PS_RAW_COMMAND ++ "\n")] := by
  have hzero : (reads (cfg.MAX_INPUT_BUFFER - 1) child.stdout).countP
      (fun b => strstr b process_string.toList) = 0 :=
    no_match_in_reads _ (by omega) _ _ hnone
  refine ⟨by rw [proc_entries_eq cfg hbuf, hzero], ?_⟩
  unfold main
  simp only [hargs, hsignal, hlog, hopen, hspawn, hps, herr, latest_entry_time_eq cfg hbuf,
    proc_entries_eq cfg hbuf]
  simp

/-- C2, at a host whose log is 5 seconds old and whose process listing has no line
with `nagios`, when `fdopen` returns NULL for the standard error of the child. -/
theorem main_stderr_null_undefined_witness :
    proc_entries sampleConfig "nagios".toList "S 0 1 init /sbin/init\n".toList = some 0 ∧
    main sampleConfig deadNoStderrWorld sampleArgv =
      .undefined
        [.fopen "status.log", .spopen sampleConfig.PS_RAW_COMMAND,
         .printf ("Could not open stderr for " ++ sampleConfig.PS_RAW_COMMAND ++ "\n")] :=
  main_stderr_null_undefined sampleConfig deadNoStderrWorld sampleArgv
    ⟨some "status.log", some "nagios", 5⟩ "status.log" "nagios" sampleLog
    ⟨"S 0 1 init /sbin/init\n".toList, none, 0⟩
    (by decide) (by decide) rfl rfl rfl (by decide) rfl rfl (by decide)

/-- C3, as stated, fails. With `expire_minutes` 35791395 the product
`expire_minutes * 60` is 2147483700, above the largest `int`: the program compares
the age with the wrapped product and returns `STATE_OK` for a log 3000000000
seconds old, an age above 2147483700, in a run with two counted processes and no
census anomaly. And when `fdopen` does not open the standard error of the child, a run
with two counted processes and a fresh log ends in undefined behaviour, with no
verdict. -/
theorem main_verdict_not_by_age :
    (proc_entries sampleConfig "nagios".toList samplePs = some 2 ∧
      latest_entry_time sampleConfig sampleLog = some 1200 ∧
      (3000001200 : Int) - 1200 > 35791395 * 60 ∧
      main sampleConfig farFutureWorld ["check_nagios", "status.log", "35791395", "nagios"] =
        .exit STATE_OK
          [.fopen "status.log", .spopen sampleConfig.PS_RAW_COMMAND,
           .printf (verdict_message STATE_OK 2 3000000000)]) ∧
    main sampleConfig noStderrWorld sampleArgv =
      .undefined
        [.fopen "status.log", .spopen sampleConfig.PS_RAW_COMMAND,
         .printf ("Could not open stderr for " ++ sampleConfig.PS_RAW_COMMAND ++ "\n")] := by
  decide

/-- C3, amended. In a run with at least one counted process, a standard error of the
child that opens and is empty, a `spclose` that returns 0, a latest entry that is not
after the clock and a product `expire_minutes * 60` that fits an `int`
(`expire_minutes` from 0 to 35791394), `main` returns `STATE_WARNING` when
`current_time - latest_entry_time > expire_minutes * 60` and `STATE_OK` otherwise; an
age equal to the threshold is OK. -/
theorem main_verdict_by_age (cfg : Config) (w : World) (argv : List String) (g : Globals)
    (status_log process_string : String) (fp : List Char) (child : Child)
    (child_stderr : List Char) (latest entries : Nat)
    (hbuf : 3 ≤ cfg.MAX_INPUT_BUFFER)
    (hargs : process_arguments cfg argv = .ret .OK g)
    (hlog : g.status_log = some status_log)
    (hps : g.process_string = some process_string)
    (hsignal : w.signal_fails = false)
    (hopen : w.fopen status_log = some fp)
    (hspawn : w.spopen cfg.PS_RAW_COMMAND = some child)
    (herr : child.stderr = some child_stderr)
    (hquiet : child_stderr = [] ∧ child.spclose = 0)
    (hlatest : latest_entry_time cfg fp = some latest)
    (hentries : proc_entries cfg process_string.toList child.stdout = some entries)
    (hfound : 1 ≤ entries)
    (hclock : (latest : Int) ≤ w.time) (htime : w.time < 2 ^ 63)
    (hexp : 0 ≤ g.expire_minutes) (hint : g.expire_minutes * 60 < 2 ^ 31) :
    main cfg w argv =
      .exit (if w.time - latest > g.expire_minutes * 60 then STATE_WARNING else STATE_OK)
        [.fopen status_log, .spopen cfg.PS_RAW_COMMAND,
         .printf (verdict_message
           (if w.time - latest > g.expire_minutes * 60 then STATE_WARNING else STATE_OK)
           entries (to_ulong (w.time - latest)))] := by
  rw [latest_entry_time_eq cfg hbuf] at hlatest
  rw [proc_entries_eq cfg hbuf] at hentries
  injection hlatest with hlatest
  injection hentries with hentries
  rw [main_run cfg w argv g status_log process_string fp child child_stderr hbuf hargs hlog hps
      hsignal hopen hspawn herr, hlatest, hentries]
  rw [if_neg (by omega)]
  have ha := to_ulong_of_range (w.time - latest) (by omega) (by omega)
  have hc := to_int_of_range (g.expire_minutes * 60) (by omega) (by omega)
  have hb := to_ulong_of_range (g.expire_minutes * 60) (by omega) (by omega)
  rw [← hc] at hb
  by_cases hstale : w.time - latest > g.expire_minutes * 60
  · rw [if_pos hstale, if_pos (by omega)]
  · rw [if_neg hstale, if_neg (by omega)]

/-- C3 amended, at the two examples of the claim and at the threshold: an age of 5 seconds
against 5 minutes is OK, an age of exactly 300 seconds against 5 minutes is OK, an
age of 4000 seconds against 1 minute is WARNING. -/
theorem main_verdict_by_age_witness :
    main sampleConfig sampleWorld sampleArgv =
      .exit STATE_OK
        [.fopen "status.log", .spopen sampleConfig.PS_RAW_COMMAND,
         .printf (verdict_message STATE_OK 2 (to_ulong ((1205 : Int) - (1200 : Nat))))] ∧
    main sampleConfig thresholdWorld sampleArgv =
      .exit STATE_OK
        [.fopen "status.log", .spopen sampleConfig.PS_RAW_COMMAND,
         .printf (verdict_message STATE_OK 2 (to_ulong ((1500 : Int) - (1200 : Nat))))] ∧
    main sampleConfig staleWorld ["check_nagios", "status.log", "1", "nagios"] =
      .exit STATE_WARNING
        [.fopen "status.log", .spopen sampleConfig.PS_RAW_COMMAND,
         .printf (verdict_message STATE_WARNING 2 (to_ulong ((5200 : Int) - (1200 : Nat))))] :=
  ⟨main_verdict_by_age sampleConfig sampleWorld sampleArgv
      ⟨some "status.log", some "nagios", 5⟩ "status.log" "nagios" sampleLog
      ⟨samplePs, some [], 0⟩ [] 1200 2 (by decide) (by decide) rfl rfl rfl (by decide) rfl rfl
      (by decide) (by decide) (by decide) (by decide) (by decide) (by decide) (by decide)
      (by decide),
   main_verdict_by_age sampleConfig thresholdWorld sampleArgv
      ⟨some "status.log", some "nagios", 5⟩ "status.log" "nagios" sampleLog
      ⟨samplePs, some [], 0⟩ [] 1200 2 (by decide) (by decide) rfl rfl rfl (by decide) rfl rfl
      (by decide) (by decide) (by decide) (by decide) (by decide) (by decide) (by decide)
      (by decide),
   main_verdict_by_age sampleConfig staleWorld ["check_nagios", "status.log", "1", "nagios"]
      ⟨some "status.log", some "nagios", 1⟩ "status.log" "nagios" sampleLog
      ⟨samplePs, some [], 0⟩ [] 1200 2 (by decide) (by decide) rfl rfl rfl (by decide) rfl rfl
      (by decide) (by decide) (by decide) (by decide) (by decide) (by decide) (by decide)
      (by decide)⟩

/-- C4, as stated, fails: a line without `]` gets the timestamp 1700000000, not 0, and
a line with a `]` gets the number before it, 1700000000, not the number 42 that
follows it. -/
theorem temp_entry_time_not_after_bracket :
    (']' ∉ "[1700000000 no bracket\n".toList ∧
      temp_entry_time "[1700000000 no bracket\n".toList = 1700000000) ∧
    (']' ∈ "[1700000000]42\n".toList ∧
      temp_entry_time "[1700000000]42\n".toList = 1700000000 ∧
      strtoul "42\n".toList = 42 ∧
      spec_temp_entry_time "[1700000000]42\n".toList = 42) := by
  decide

/-- C4, amended. The timestamp `temp_entry_time` of a buffer depends on its bytes
before the first NUL only. It is 0 when these are all `]`; otherwise it is
`strtoul` of the text that starts one byte after the first byte that is not `]` and
ends before the next `]` or at the end of the buffer (for `[123] x` the number
between the brackets, and for a line without `]` the number after its first
byte). `strtoul` gives the value of a leading run of digits, at most `ULONG_MAX`,
and 0 for an empty text or one whose first byte is not white space, a sign or a
digit. -/
theorem temp_entry_time_rule :
    (∀ buf : List Char, temp_entry_time buf = temp_entry_time (cstr buf)) ∧
    (∀ buf : List Char, (∀ c ∈ cstr buf, c = ']') → temp_entry_time buf = 0) ∧
    (∀ (n : Nat) (c : Char) (body rest : List Char),
      c ≠ ']' → c ≠ NUL → ']' ∉ body → NUL ∉ body →
      temp_entry_time (List.replicate n ']' ++ c :: body ++ ']' :: rest) = strtoul body ∧
      temp_entry_time (List.replicate n ']' ++ c :: body) = strtoul body) ∧
    (∀ d rest : List Char, d ≠ [] → (∀ c ∈ d, c.isDigit = true) →
      (∀ c, rest.head? = some c → c.isDigit = false) →
      strtoul (d ++ rest) = min (decimalValue d) ULONG_MAX) ∧
    strtoul [] = 0 ∧
    (∀ (c : Char) (rest : List Char), isspace c = false → c ≠ '-' → c ≠ '+' →
      c.isDigit = false → strtoul (c :: rest) = 0) := by
  refine ⟨?_, temp_entry_time_zero, ?_, strtoul_number, strtoul_nil, strtoul_garbage⟩
  · intro buf
    unfold temp_entry_time strtok
    rw [cstr_of_no_nul (cstr buf) (cstr_no_nul buf)]
  intro n c body rest hc hnul hb hbnul
  have hpre : NUL ∉ List.replicate n ']' ++ c :: body := by
    intro h
    simp only [List.mem_append, List.mem_cons] at h
    rcases h with e | e | e
    · exact absurd (List.eq_of_mem_replicate e) (by decide)
    · exact hnul e.symm
    · exact hbnul e
  constructor
  · have hcstr : cstr (List.replicate n ']' ++ c :: body ++ ']' :: rest) =
        List.replicate n ']' ++ c :: (body ++ ']' :: cstr rest) := by
      have h1 := cstr_append (List.replicate n ']' ++ c :: body) (']' :: rest) hpre
      have h2 : cstr (']' :: rest) = ']' :: cstr rest := cstr_append [']'] rest (by decide)
      rw [h2] at h1
      simpa using h1
    exact temp_entry_time_of_cstr _ n c body _ hcstr hc hb (Or.inr rfl)
  · have hcstr : cstr (List.replicate n ']' ++ c :: body) =
        List.replicate n ']' ++ c :: (body ++ []) := by
      rw [cstr_of_no_nul _ hpre]; simp
    exact temp_entry_time_of_cstr _ n c body [] hcstr hc hb (Or.inl rfl)

/-- C4 amended, at the line `[1700000000]42`: the timestamp is `strtoul` of
`1700000000`, the text between the brackets. -/
theorem temp_entry_time_rule_witness :
    temp_entry_time (List.replicate 0 ']' ++ '[' :: "1700000000".toList ++ ']' :: "42\n".toList) =
      strtoul "1700000000".toList ∧ strtoul "1700000000".toList = 1700000000 :=
  ⟨(temp_entry_time_rule.2.2.1 0 '[' "1700000000".toList "42\n".toList
      (by decide) (by decide) (by decide) (by decide)).1, by decide⟩

/-- C5. For a status log of any content, the read loop ends with a `latest_entry_time`
that is the maximum of the values `temp_entry_time` its body computes, one for each
buffer `fgets` fills (one for each line, when the lines fit the buffer): it is at
least every such value, it is one of them or 0, it is 0 for an empty file and
when every value is 0, and appending text after the last complete line of the
file never decreases it. -/
theorem latest_entry_time_is_maximum (cfg : Config) (fp : List Char)
    (hbuf : 3 ≤ cfg.MAX_INPUT_BUFFER) :
    ∃ latest : Nat, latest_entry_time cfg fp = some latest ∧
      latest = ((reads (cfg.MAX_INPUT_BUFFER - 1) fp).map temp_entry_time).foldr max 0 ∧
      ((∀ l ∈ textLines fp, l.length ≤ cfg.MAX_INPUT_BUFFER - 2) →
        latest = ((textLines fp).map temp_entry_time).foldr max 0) ∧
      (∀ t ∈ (reads (cfg.MAX_INPUT_BUFFER - 1) fp).map temp_entry_time, t ≤ latest) ∧
      (latest = 0 ∨ latest ∈ (reads (cfg.MAX_INPUT_BUFFER - 1) fp).map temp_entry_time) ∧
      (fp = [] → latest = 0) ∧
      ((∀ t ∈ (reads (cfg.MAX_INPUT_BUFFER - 1) fp).map temp_entry_time, t = 0) →
        latest = 0) ∧
      (∀ line : List Char, fp = [] ∨ fp.getLast? = some '\n' →
        ∃ latest2 : Nat, latest_entry_time cfg (fp ++ line) = some latest2 ∧
          latest ≤ latest2) := by
  refine ⟨_, latest_entry_time_eq cfg hbuf fp, rfl, ?_, foldr_max_le _, foldr_max_mem _, ?_,
    ?_, ?_⟩
  · intro hfit
    rw [reads_eq_textLines _ (by omega) _ (fun l hl => by
      have := hfit l hl
      omega)]
  · intro h
    simp [h, reads_nil]
  · intro h
    rcases foldr_max_mem ((reads (cfg.MAX_INPUT_BUFFER - 1) fp).map temp_entry_time) with h0 | hm
    · exact h0
    · exact h _ hm
  · intro line hfp
    refine ⟨_, latest_entry_time_eq cfg hbuf (fp ++ line), ?_⟩
    rw [reads_append_line _ (by omega) fp line hfp, List.map_append, foldr_max_append]
    exact Nat.le_max_left _ _

/-- C5, at the sample log, whose three lines are stamped 1000, 1200 and 1100. -/
theorem latest_entry_time_is_maximum_witness :
    ∃ latest : Nat, latest_entry_time sampleConfig sampleLog = some latest ∧
      latest =
        ((reads (sampleConfig.MAX_INPUT_BUFFER - 1) sampleLog).map temp_entry_time).foldr max 0 ∧
      (reads (sampleConfig.MAX_INPUT_BUFFER - 1) sampleLog).map temp_entry_time =
        [1000, 1200, 1100] :=
  let ⟨latest, h1, h2, _⟩ := latest_entry_time_is_maximum sampleConfig sampleLog (by decide)
  ⟨latest, h1, h2, by decide⟩

/-- C6, as stated, fails for a line longer than one `fgets` read: with a buffer of 1024
bytes a read stores 1022 bytes, so a line of 1019 bytes `x` followed by `nagios`
reaches the loop as a buffer that ends in `nag` and a buffer `ios`; the one line
contains `nagios` and `proc_entries` is 0. -/
theorem proc_entries_long_line :
    (textLines (List.replicate 1019 'x' ++ "nagios\n".toList)).countP
        (fun l => decide ("nagios".toList <:+: l)) = 1 ∧
    proc_entries sampleConfig "nagios".toList
        (List.replicate 1019 'x' ++ "nagios\n".toList) = some 0 :=
  ⟨long_line_count 1019,
   (proc_entries_eq sampleConfig (by decide) _ _).trans
     (congrArg some (long_line_entries 1023 1019 (by decide) (by decide) (by decide)))⟩

/-- C6, amended. When every line of the child's output, with its newline, fits one
`fgets` read (at most `MAX_INPUT_BUFFER - 2` bytes), `proc_entries` after the census
loop is the number of output lines that contain `process_string` as a contiguous
run of equal bytes (in the part of the line before a NUL byte, when the line has
one), and an output whose lines are a permutation of these lines gives the same
count; so does the output made of the same newline-terminated lines written in
another order. -/
theorem proc_entries_counts_lines (cfg : Config) (process_string out : List Char)
    (hbuf : 3 ≤ cfg.MAX_INPUT_BUFFER)
    (hfit : ∀ l ∈ textLines out, l.length ≤ cfg.MAX_INPUT_BUFFER - 2) :
    proc_entries cfg process_string out =
      some ((textLines out).countP (fun l => decide (cstr process_string <:+: cstr l))) ∧
    ((∀ l ∈ textLines out, NUL ∉ l) →
      proc_entries cfg process_string out =
        some ((textLines out).countP (fun l => decide (cstr process_string <:+: l)))) ∧
    (∀ out2 : List Char, (textLines out2).Perm (textLines out) →
      proc_entries cfg process_string out2 = proc_entries cfg process_string out) ∧
    (∀ ls ls2 : List (List Char), (∀ l ∈ ls, IsTerminatedLine l) → ls.flatten = out →
      ls2.Perm ls →
      proc_entries cfg process_string ls2.flatten = proc_entries cfg process_string out) := by
  have hperm : ∀ out2 : List Char, (textLines out2).Perm (textLines out) →
      proc_entries cfg process_string out2 = proc_entries cfg process_string out := by
    intro out2 hperm
    rw [proc_entries_of_lines cfg _ _ hbuf hfit,
      proc_entries_of_lines cfg _ _ hbuf (fun l hl => hfit l (hperm.mem_iff.mp hl)),
      hperm.countP_eq]
  refine ⟨proc_entries_of_lines cfg _ _ hbuf hfit, ?_, hperm, ?_⟩
  · intro hnul
    rw [proc_entries_of_lines cfg _ _ hbuf hfit]
    congr 1
    apply List.countP_congr
    intro l hl
    rw [cstr_of_no_nul l (hnul l hl)]
  · intro ls ls2 hls hout hp
    apply hperm
    rw [← hout, textLines_flatten ls hls,
      textLines_flatten ls2 (fun l hl => hls l (hp.mem_iff.mp hl))]
    exact hp

/-- C6 amended, at the sample process listing: two of its three lines contain
`nagios`, in the order given and with the first two lines exchanged. -/
theorem proc_entries_counts_lines_witness :
    proc_entries sampleConfig "nagios".toList samplePs =
      some ((textLines samplePs).countP (fun l => decide (cstr "nagios".toList <:+: l))) ∧
    (textLines samplePs).countP (fun l => decide (cstr "nagios".toList <:+: l)) = 2 ∧
    proc_entries sampleConfig "nagios".toList
        ["S 500 1 nagios /usr/bin/nagios -d\n".toList, "S 0 1 init /sbin/init\n".toList,
          "S 500 871 nagios /usr/bin/nagios -d\n".toList].flatten =
      proc_entries sampleConfig "nagios".toList samplePs :=
  ⟨(proc_entries_counts_lines sampleConfig "nagios".toList samplePs (by decide)
      (by decide)).2.1 (by decide), by decide,
   (proc_entries_counts_lines sampleConfig "nagios".toList samplePs (by decide)
      (by decide)).2.2.2
      ["S 0 1 init /sbin/init\n".toList, "S 500 1 nagios /usr/bin/nagios -d\n".toList,
        "S 500 871 nagios /usr/bin/nagios -d\n".toList]
      ["S 500 1 nagios /usr/bin/nagios -d\n".toList, "S 0 1 init /sbin/init\n".toList,
        "S 500 871 nagios /usr/bin/nagios -d\n".toList]
      (by decide) (by decide) (List.Perm.swap _ _ _)⟩

/-- C7. Infrastructure failures end the run at once. When `process_arguments` returned
`OK` and the alarm handler is installed: if the status log does not open, `main`
prints "Error: Cannot open status log for reading!" and returns `STATE_CRITICAL`
without calling `spopen`, whatever the process table holds; if the log opens and
`spopen` returns NULL, `main` returns `STATE_UNKNOWN`, whatever the log holds and
whatever the clock and `expire_minutes` are. -/
theorem main_infrastructure_failure (cfg : Config) (w : World) (argv : List String)
    (g : Globals) (status_log : String)
    (hargs : process_arguments cfg argv = .ret .OK g)
    (hlog : g.status_log = some status_log)
    (hsignal : w.signal_fails = false) :
    (w.fopen status_log = none →
      main cfg w argv =
        .exit STATE_CRITICAL
          [.fopen status_log, .printf "Error: Cannot open status log for reading!\n"]) ∧
    (∀ fp : List Char, 3 ≤ cfg.MAX_INPUT_BUFFER → w.fopen status_log = some fp →
      w.spopen cfg.PS_RAW_COMMAND = none →
      main cfg w argv =
        .exit STATE_UNKNOWN
          [.fopen status_log, .spopen cfg.PS_RAW_COMMAND,
           .printf ("Could not open pipe: " ++ cfg.PS_RAW_COMMAND ++ "\n")]) := by
  constructor
  · intro hopen
    unfold main
    simp only [hargs, hsignal, hlog, hopen]
    simp
  · intro fp hbuf hopen hspawn
    unfold main
    simp only [hargs, hsignal, hlog, hopen, hspawn, latest_entry_time_eq cfg hbuf]
    simp

/-- C7, at a host without the log file, and at a host where the child cannot be
started. -/
theorem main_infrastructure_failure_witness :
    main sampleConfig sampleWorld ["check_nagios", "missing.log", "5", "nagios"] =
      .exit STATE_CRITICAL
        [.fopen "missing.log", .printf "Error: Cannot open status log for reading!\n"] ∧
    main sampleConfig noChildWorld sampleArgv =
      .exit STATE_UNKNOWN
        [.fopen "status.log", .spopen sampleConfig.PS_RAW_COMMAND,
         .printf ("Could not open pipe: " ++ sampleConfig.PS_RAW_COMMAND ++ "\n")] :=
  ⟨(main_infrastructure_failure sampleConfig sampleWorld
      ["check_nagios", "missing.log", "5", "nagios"] ⟨some "missing.log", some "nagios", 5⟩
      "missing.log" (by decide) rfl rfl).1 (by decide),
   (main_infrastructure_failure sampleConfig noChildWorld sampleArgv
      ⟨some "status.log", some "nagios", 5⟩ "status.log" (by decide) rfl rfl).2
      sampleLog (by decide) (by decide) rfl⟩

/-- C8 (a defect of the code). When the latest entry of the log is after the clock, the
subtraction of line 124 is done in `unsigned long` and wraps: the age compared is
`2 ^ 64 - (latest_entry_time - current_time)`, above every threshold an `int` holds, and
`main` returns `STATE_WARNING`. The age is not taken as 0. -/
theorem main_clock_skew_warning (cfg : Config) (w : World) (argv : List String) (g : Globals)
    (status_log process_string : String) (fp : List Char) (child : Child)
    (child_stderr : List Char) (latest entries : Nat)
    (hbuf : 3 ≤ cfg.MAX_INPUT_BUFFER)
    (hargs : process_arguments cfg argv = .ret .OK g)
    (hlog : g.status_log = some status_log)
    (hps : g.process_string = some process_string)
    (hsignal : w.signal_fails = false)
    (hopen : w.fopen status_log = some fp)
    (hspawn : w.spopen cfg.PS_RAW_COMMAND = some child)
    (herr : child.stderr = some child_stderr)
    (hlatest : latest_entry_time cfg fp = some latest)
    (hentries : proc_entries cfg process_string.toList child.stdout = some entries)
    (hfound : 1 ≤ entries)
    (hskew : w.time < latest) (hclock : 0 ≤ w.time) (hstamp : latest < 2 ^ 63)
    (hexp : 0 ≤ g.expire_minutes) (hint : g.expire_minutes * 60 < 2 ^ 31) :
    (to_ulong (w.time - latest) : Int) = 2 ^ 64 - (latest - w.time) ∧
    main cfg w argv =
      .exit STATE_WARNING
        [.fopen status_log, .spopen cfg.PS_RAW_COMMAND,
         .printf (verdict_message STATE_WARNING entries (to_ulong (w.time - latest)))] := by
  rw [latest_entry_time_eq cfg hbuf] at hlatest
  rw [proc_entries_eq cfg hbuf] at hentries
  injection hlatest with hlatest
  injection hentries with hentries
  have ha := to_ulong_of_neg (w.time - latest) (by omega) (by omega)
  have hc := to_int_of_range (g.expire_minutes * 60) (by omega) (by omega)
  have hb := to_ulong_of_range (g.expire_minutes * 60) (by omega) (by omega)
  rw [← hc] at hb
  refine ⟨by omega, ?_⟩
  rw [main_run cfg w argv g status_log process_string fp child child_stderr hbuf hargs hlog hps
      hsignal hopen hspawn herr, hlatest, hentries]
  rw [if_neg (by omega), if_pos (by omega)]

/-- C8, at a host whose clock (1199) is one second behind the latest entry (1200),
with a threshold of 5 minutes: the age compared is `2 ^ 64 - 1` and `main` answers
WARNING. -/
theorem main_clock_skew_warning_witness :
    (to_ulong ((1199 : Int) - (1200 : Nat)) : Int) = 2 ^ 64 - ((1200 : Nat) - 1199) ∧
    main sampleConfig skewedWorld sampleArgv =
      .exit STATE_WARNING
        [.fopen "status.log", .spopen sampleConfig.PS_RAW_COMMAND,
         .printf (verdict_message STATE_WARNING 2 (to_ulong ((1199 : Int) - (1200 : Nat))))] :=
  main_clock_skew_warning sampleConfig skewedWorld sampleArgv
    ⟨some "status.log", some "nagios", 5⟩ "status.log" "nagios" sampleLog
    ⟨samplePs, some [], 0⟩ [] 1200 2 (by decide) (by decide) rfl rfl rfl (by decide) rfl rfl
    (by decide) (by decide) (by decide) (by decide) (by decide) (by decide) (by decide)
    (by decide)

/-- C9 (a defect of the code). In the positional form with two arguments after the program
name, the log and the minutes, `process_arguments` returns `OK` with `process_string`
left NULL: `argv[3]` is the NULL that ends the vector, and the positional branch
has no check like the one of lines 213-220. The run then does not conclude with
`STATE_UNKNOWN` before any I/O: `main` opens the status log (and returns
`STATE_CRITICAL` when that fails), spawns the child, and hands the NULL to
`strstr` at the first line the child writes. -/
theorem process_arguments_positional_null (cfg : Config) (w : World)
    (argv0 logfile minutes : String)
    (hopt : cfg.is_option logfile = false)
    (hint : cfg.is_intnonneg (some minutes) = true)
    (hsignal : w.signal_fails = false) :
    process_arguments cfg [argv0, logfile, minutes] =
      .ret .OK ⟨some logfile, none, cfg.atoi (some minutes)⟩ ∧
    (w.fopen logfile = none →
      main cfg w [argv0, logfile, minutes] =
        .exit STATE_CRITICAL
          [.fopen logfile, .printf "Error: Cannot open status log for reading!\n"]) ∧
    (∀ (fp : List Char) (child : Child), 3 ≤ cfg.MAX_INPUT_BUFFER →
      w.fopen logfile = some fp → w.spopen cfg.PS_RAW_COMMAND = some child →
      child.stdout ≠ [] →
      ∃ trace, main cfg w [argv0, logfile, minutes] = .undefined trace ∧
        Event.fopen logfile ∈ trace ∧ Event.spopen cfg.PS_RAW_COMMAND ∈ trace) := by
  have hargs : process_arguments cfg [argv0, logfile, minutes] =
      .ret .OK ⟨some logfile, none, cfg.atoi (some minutes)⟩ := by
    simp [process_arguments, hopt, hint]
  refine ⟨hargs, ?_, ?_⟩
  · intro hopen
    unfold main
    simp only [hargs, hsignal, hopen]
    simp
  · intro fp child hbuf hopen hspawn hout
    unfold main
    simp only [hargs, hsignal, hopen, hspawn, latest_entry_time_eq cfg hbuf]
    simp [hout]

/-- C9, at `check_nagios status.log 5` on the healthy host: `OK` with a NULL
`process_string`, and a run that reaches undefined behaviour after opening the
log and spawning the child. -/
theorem process_arguments_positional_null_witness :
    process_arguments sampleConfig ["check_nagios", "status.log", "5"] =
      .ret .OK ⟨some "status.log", none, 5⟩ ∧
    main sampleConfig sampleWorld ["check_nagios", "status.log", "5"] =
      .undefined [.fopen "status.log", .spopen sampleConfig.PS_RAW_COMMAND] :=
  ⟨(process_arguments_positional_null sampleConfig sampleWorld "check_nagios" "status.log" "5"
      (by decide) (by decide) rfl).1, by decide⟩

/-- C10. For a status-log line of the Nagios form `[d]rest`, with `d` a string of decimal
digits whose value fits an `unsigned long`, the timestamp `temp_entry_time` the read
loop computes is the value of `d`, whatever `rest` holds; and when the line (with its
newline, or as an unterminated last line) fits one `fgets` read, the loop reads it
whole. -/
theorem temp_entry_time_between_brackets (cfg : Config) (d rest : List Char)
    (hdigits : ∀ c ∈ d, c.isDigit = true) (hne : d ≠ [])
    (hvalue : decimalValue d ≤ ULONG_MAX) :
    temp_entry_time (nagiosLine d rest) = decimalValue d ∧
    temp_entry_time (nagiosLine d rest ++ ['\n']) = decimalValue d ∧
    (∀ more : List Char, '\n' ∉ rest →
      (nagiosLine d rest).length + 1 ≤ cfg.MAX_INPUT_BUFFER - 2 →
      fgets (cfg.MAX_INPUT_BUFFER - 1) (nagiosLine d rest ++ '\n' :: more) =
        some (nagiosLine d rest ++ ['\n'], more) ∧
      fgets (cfg.MAX_INPUT_BUFFER - 1) (nagiosLine d rest) = some (nagiosLine d rest, [])) := by
  refine ⟨?_, ?_, ?_⟩
  · rw [temp_entry_time_nagiosLine d rest hdigits]
    omega
  · have : nagiosLine d rest ++ ['\n'] = nagiosLine d (rest ++ ['\n']) := by
      simp [nagiosLine]
    rw [this, temp_entry_time_nagiosLine d _ hdigits]
    omega
  · intro more hrest hfit
    have hline : '\n' ∉ nagiosLine d rest := by
      unfold nagiosLine
      intro h
      simp only [List.cons_append, List.mem_cons, List.mem_append] at h
      rcases h with e | e | e | e
      · exact absurd e (by decide)
      · exact isDigit_ne_newline _ (hdigits _ e) rfl
      · exact absurd e (by decide)
      · exact hrest e
    have hnil : nagiosLine d rest ≠ [] := by simp [nagiosLine]
    constructor
    · unfold fgets
      rw [if_neg (by simp [nagiosLine]), readLine_whole_line _ _ _ hline (by omega)]
    · unfold fgets
      rw [if_neg hnil, readLine_last_line _ _ hline (by omega)]

/-- C10, at the line `[1200] HOST;web;UP;1198` with a buffer of 1024 bytes. -/
theorem temp_entry_time_between_brackets_witness :
    temp_entry_time (nagiosLine "1200".toList " HOST;web;UP;1198".toList ++ ['\n']) =
      decimalValue "1200".toList ∧ decimalValue "1200".toList = 1200 :=
  ⟨(temp_entry_time_between_brackets sampleConfig "1200".toList " HOST;web;UP;1198".toList
      (by decide) (by decide) (by decide)).2.1, by decide⟩

end CheckNagios
